import Mathlib

/-!
Verification of the spellcaster reactive state engine.

The repository contains two reactive implementations:

* an observer-based implementation (`signal`, `reductions`, `sample`,
  `useStore`, `setCancel`/`cancel`/`batchCancels`, `createThrottlingScheduler`)
  modelled here in namespace `Spellcaster.Obs`;
* a dependency-tracking implementation (`dependencyTracker`, `throttled`,
  `transaction`, `useSignal`, `useComputed`, `useEffect`, `useStore`,
  `takeValues`) modelled here in namespace `Spellcaster.Track`.

Both are embedded as explicit state machines: JavaScript closures become
state records, `queueMicrotask` becomes a FIFO queue of pending jobs drained
by a fuel-indexed loop, and tracked functions become trees of signal reads.
-/

set_option linter.unusedSectionVars false

namespace Spellcaster

/-! ## List access helpers -/

/-- Read the element at index `i`, with a default for out-of-range access. -/
def getD {α : Type} (l : List α) (i : Nat) (d : α) : α := (l.get? i).getD d

/-! ## The dependency-tracking implementation (second source file) -/

namespace Track

/-- A tracked computation: the body of a `useComputed` compute function or a
`useEffect` perform function, expressed as a tree of reads.  `readSig i k`
reads the signal with index `i` (registering the currently tracked listener
in that signal's change transaction, as `read` does), `readNode j k` reads a
computed signal with node index `j`. -/
inductive Comp (V : Type) (A : Type) where
  | pure (a : A)
  | readSig (i : Nat) (k : V → Comp V A)
  | readNode (j : Nat) (k : V → Comp V A)

/-- State of one `useSignal` cell: the stored `state` variable plus the
`transaction` listener set of its `didChange` publisher.  Listeners are node
indices (each node's throttled `recompute`/`performEffect` job); the list is
kept deduplicated in insertion order, mirroring the JavaScript `Set`. -/
structure Sig (V : Type) where
  state : V
  txn : List Nat
deriving Repr, DecidableEq

instance {V : Type} [Inhabited V] : Inhabited (Sig V) := ⟨⟨default, []⟩⟩

/-- State of one tracked node (a `useComputed` or a `useEffect`).
`isComputed` distinguishes the two; `state` is the computed's stored value,
`closure` the mutable closure state captured by its body, `txn` the
computed's own `didChange` transaction set, and `isScheduled` the flag of its
`throttled` wrapper. -/
structure Node (V S : Type) where
  isComputed : Bool
  state : V
  closure : S
  txn : List Nat
  isScheduled : Bool
deriving Repr, DecidableEq

instance {V S : Type} [Inhabited V] [Inhabited S] : Inhabited (Node V S) :=
  ⟨⟨false, default, default, [], false⟩⟩

/-- Whole-system state: signals, nodes, the microtask queue (indices of nodes
whose throttled job is pending), and an instrumentation log recording, for
each run of a node's tracked function, the node index and the list of
(signal index, value) pairs it read. -/
structure Sys (V S : Type) where
  sigs : List (Sig V)
  nodes : List (Node V S)
  queue : List Nat
  log : List (Nat × List (Nat × V))
deriving Repr, DecidableEq

variable {V S A B : Type}

/-- The signal accessed by index, defaulting for out-of-range indices. -/
def getSig [Inhabited V] (sys : Sys V S) (i : Nat) : Sig V := getD sys.sigs i default

/-- The node accessed by index, defaulting for out-of-range indices. -/
def getNode [Inhabited V] [Inhabited S] (sys : Sys V S) (j : Nat) : Node V S :=
  getD sys.nodes j default

/-- Current stored value of signal `i`. -/
def sigState [Inhabited V] (sys : Sys V S) (i : Nat) : V := (getSig sys i).state

/-- Current stored value of node `j`. -/
def nodeState [Inhabited V] [Inhabited S] (sys : Sys V S) (j : Nat) : V := (getNode sys j).state

/-- Scheduled flag of node `j`'s throttled job. -/
def flagOf [Inhabited V] [Inhabited S] (sys : Sys V S) (j : Nat) : Bool :=
  (getNode sys j).isScheduled

/-- Add a listener to a transaction set, mirroring `transaction().withTransaction`:
`undefined` (no tracked scope, `none` here) is ignored, and a listener already
present is not added again (`Set` semantics). -/
def addListener (t : Option Nat) (l : List Nat) : List Nat :=
  match t with
  | none => l
  | some j => if j ∈ l then l else l ++ [j]

/-- Register the tracked listener in signal `i`'s transaction, as performed by
`read()` via `didChange.withTransaction(getTracked())`. -/
def regSig [Inhabited V] (t : Option Nat) (i : Nat) (sys : Sys V S) : Sys V S :=
  {sys with sigs := sys.sigs.set i {getSig sys i with txn := addListener t (getSig sys i).txn}}

/-- Register the tracked listener in node `j`'s transaction, as performed by a
computed's `read()`. -/
def regNode [Inhabited V] [Inhabited S] (t : Option Nat) (j : Nat) (sys : Sys V S) : Sys V S :=
  {sys with nodes := sys.nodes.set j {getNode sys j with txn := addListener t (getNode sys j).txn}}

/-- Run a tracked computation under `withTracking`: each read registers the
tracked listener `t` and returns the current stored value.  Returns the final
system, the result, and the list of signal reads performed (index and value
observed), in order. -/
def track [Inhabited V] [Inhabited S] (t : Option Nat) :
    Comp V A → Sys V S → Sys V S × A × List (Nat × V)
  | .pure a, sys => (sys, a, [])
  | .readSig i k, sys =>
    let v := sigState sys i
    let r := track t (k v) (regSig t i sys)
    (r.1, r.2.1, (i, v) :: r.2.2)
  | .readNode j k, sys =>
    let v := nodeState sys j
    let r := track t (k v) (regNode t j sys)
    (r.1, r.2.1, r.2.2)

/-- Pure denotation of a tracked computation against signal values `sv` and
node values `nv` (no registration side effects). -/
def evalC (sv nv : Nat → V) : Comp V A → A
  | .pure a => a
  | .readSig i k => evalC sv nv (k (sv i))
  | .readNode j k => evalC sv nv (k (nv j))

/-- Signal reads performed by a tracked computation against values `sv`, `nv`. -/
def readsC (sv nv : Nat → V) : Comp V A → List (Nat × V)
  | .pure _ => []
  | .readSig i k => (i, sv i) :: readsC sv nv (k (sv i))
  | .readNode j k => readsC sv nv (k (nv j))

/-- A computation that reads only signals, never computed nodes. -/
inductive SigOnly : Comp V A → Prop where
  | pure (a : A) : SigOnly (.pure a)
  | readSig (i : Nat) (k : V → Comp V A) (h : ∀ v, SigOnly (k v)) : SigOnly (.readSig i k)

/-- A computation that reads only signals, and only signals with index below
`n` (so all its reads hit existing signals of a system with `n` signals). -/
inductive SigBelow (n : Nat) : Comp V A → Prop where
  | pure (a : A) : SigBelow n (.pure a)
  | readSig (i : Nat) (k : V → Comp V A) (hi : i < n) (h : ∀ v, SigBelow n (k v)) :
      SigBelow n (.readSig i k)

/-- Map a function over the result of a computation. -/
def mapC (f : A → B) : Comp V A → Comp V B
  | .pure a => .pure (f a)
  | .readSig i k => .readSig i (fun v => mapC f (k v))
  | .readNode j k => .readNode j (fun v => mapC f (k v))

/-- Denotation of a signal-only computation (node values are irrelevant). -/
def evalS [Inhabited V] (sv : Nat → V) (c : Comp V A) : A := evalC sv (fun _ => default) c

/-- Reads of a signal-only computation. -/
def readsS [Inhabited V] (sv : Nat → V) (c : Comp V A) : List (Nat × V) :=
  readsC sv (fun _ => default) c

/-- Schedule node `k`'s throttled job, mirroring `throttled`'s `schedule`:
if the flag is not set, set it and queue the perform job; otherwise no-op. -/
def schedule [Inhabited V] [Inhabited S] (k : Nat) (sys : Sys V S) : Sys V S :=
  if (getNode sys k).isScheduled then sys
  else {sys with nodes := sys.nodes.set k {getNode sys k with isScheduled := true},
                 queue := sys.queue ++ [k]}

/-- Run a captured transaction: notify each listener once, in order.  Each
listener is a throttled `schedule`, so notification only enqueues jobs. -/
def scheduleAll [Inhabited V] [Inhabited S] (l : List Nat) (sys : Sys V S) : Sys V S :=
  l.foldl (fun s k => schedule k s) sys

/-- Write a value to signal `i`, mirroring `useSignal`'s `send`: no-op if the
value is unchanged under inequality comparison; otherwise store it and
`transact` (capture the listener set, reset it, notify each listener). -/
def send [DecidableEq V] [Inhabited V] [Inhabited S] (i : Nat) (v : V) (sys : Sys V S) :
    Sys V S :=
  if sigState sys i = v then sys
  else
    let listeners := (getSig sys i).txn
    let sys1 := {sys with sigs := sys.sigs.set i {getSig sys i with state := v, txn := []}}
    scheduleAll listeners sys1

/-- Replace node `j` wholesale. -/
def setNode (j : Nat) (nd : Node V S) (sys : Sys V S) : Sys V S :=
  {sys with nodes := sys.nodes.set j nd}

/-- Append one run record to the instrumentation log. -/
def logRun (j : Nat) (reads : List (Nat × V)) (sys : Sys V S) : Sys V S :=
  {sys with log := sys.log ++ [(j, reads)]}

/-- Store the closure state node `j`'s tracked run finished with. -/
def setClosure [Inhabited V] [Inhabited S] (j : Nat) (s' : S) (sys : Sys V S) : Sys V S :=
  setNode j {getNode sys j with closure := s'} sys

/-- Commit the value a computed's recompute produced, mirroring
`if (state !== value) { state = value; didChange.transact() }`: when the value
changed under inequality comparison, store it, capture and reset the
computed's listener set, and notify each captured listener. -/
def commitComputed [DecidableEq V] [Inhabited V] [Inhabited S] (j : Nat) (v : V)
    (sys : Sys V S) : Sys V S :=
  let nd2 := getNode sys j
  if nd2.state = v then sys
  else scheduleAll nd2.txn (setNode j {nd2 with state := v, txn := []} sys)

/-- Clear a node's throttled flag (`isScheduled = false` after the job runs). -/
def clearFlag [Inhabited V] [Inhabited S] (j : Nat) (sys : Sys V S) : Sys V S :=
  setNode j {getNode sys j with isScheduled := false} sys

/-- Run node `j`'s throttled perform job once, from the microtask queue.
For a computed: run `compute` under tracking, and if the value changed under
inequality comparison, store it and `transact` the computed's own listeners.
For an effect: just run `perform` under tracking.  In both cases the
`isScheduled` flag is cleared after the job, and the run is appended to the
instrumentation log. -/
def perform [DecidableEq V] [Inhabited V] [Inhabited S]
    (prog : Nat → S → Comp V (S × V)) (j : Nat) (sys : Sys V S) : Sys V S :=
  let nd := getNode sys j
  let r := track (some j) (prog j nd.closure) sys
  let sys2 := setClosure j r.2.1.1 (logRun j r.2.2 r.1)
  let sys3 := if nd.isComputed then commitComputed j r.2.1.2 sys2 else sys2
  clearFlag j sys3

/-- Pop and run one pending microtask, if any. -/
def drainStep [DecidableEq V] [Inhabited V] [Inhabited S]
    (prog : Nat → S → Comp V (S × V)) (sys : Sys V S) : Sys V S :=
  match sys.queue with
  | [] => sys
  | j :: rest => perform prog j {sys with queue := rest}

/-- Drain up to `n` microtasks. -/
def flushN [DecidableEq V] [Inhabited V] [Inhabited S]
    (prog : Nat → S → Comp V (S × V)) : Nat → Sys V S → Sys V S
  | 0, sys => sys
  | n + 1, sys => flushN prog n (drainStep prog sys)

/-- Apply a sequence of writes synchronously (all within one tick). -/
def applyWrites [DecidableEq V] [Inhabited V] [Inhabited S]
    (ws : List (Nat × V)) (sys : Sys V S) : Sys V S :=
  ws.foldl (fun s p => send p.1 p.2 s) sys

/-- An external interaction with the system: a synchronous write, or letting
one pending microtask run. -/
inductive Op (V : Type) where
  | write (i : Nat) (v : V)
  | flush
deriving Repr, DecidableEq

/-- Apply one interaction. -/
def applyOp [DecidableEq V] [Inhabited V] [Inhabited S]
    (prog : Nat → S → Comp V (S × V)) : Op V → Sys V S → Sys V S
  | .write i v, sys => send i v sys
  | .flush, sys => drainStep prog sys

/-- Apply a sequence of interactions. -/
def applyOps [DecidableEq V] [Inhabited V] [Inhabited S]
    (prog : Nat → S → Comp V (S × V)) (ops : List (Op V)) (sys : Sys V S) : Sys V S :=
  ops.foldl (fun s op => applyOp prog op s) sys

/-- Create a fresh signal with an initial value (appended at the next index). -/
def newSignal (v : V) (sys : Sys V S) : Sys V S :=
  {sys with sigs := sys.sigs ++ [⟨v, []⟩]}

/-- Construct a node at the next free index: append it, then run its body once
under tracking (the construction run of `useComputed`/`useEffect`), storing the
resulting value and closure. -/
def constructNode [Inhabited V] [Inhabited S]
    (prog : Nat → S → Comp V (S × V)) (isComp : Bool) (s0 : S) (sys : Sys V S) : Sys V S :=
  let j := sys.nodes.length
  let sys1 := {sys with nodes := sys.nodes ++ [⟨isComp, default, s0, [], false⟩]}
  let r := track (some j) (prog j s0) sys1
  let sys2 := {r.1 with log := r.1.log ++ [(j, r.2.2)]}
  setNode j {getNode sys2 j with state := r.2.1.2, closure := r.2.1.1} sys2

/-- Untracked read of a computed from outside any tracking scope:
`getTracked()` is `undefined`, so nothing registers and the stored value is
returned. -/
def read [Inhabited V] [Inhabited S] (sys : Sys V S) (j : Nat) : V := nodeState sys j

/-- Number of runs of node `j` recorded in a log. -/
def countRuns (j : Nat) (log : List (Nat × List (Nat × V))) : Nat :=
  (log.filter (fun e => e.1 = j)).length

/-- The fields of a node other than its transaction set (the parts a tracked
run of another computation can never change). -/
def nodeCore (nd : Node V S) : Bool × V × S × Bool :=
  (nd.isComputed, nd.state, nd.closure, nd.isScheduled)

/-- Runs of node `e` so far, plus its pending occurrences in the microtask
queue; the drain of a tick never increases this measure for a signal-only
node that is registered in no node transaction. -/
def eCount [Inhabited V] [Inhabited S] (e : Nat) (sys : Sys V S) : Nat :=
  countRuns e sys.log + sys.queue.count e

/-- The last value written to signal `s0` in a write sequence, if any. -/
def lastWriteTo (s0 : Nat) : List (Nat × V) → Option V
  | [] => none
  | p :: rest =>
    match lastWriteTo s0 rest with
    | some v => some v
    | none => if p.1 = s0 then some p.2 else none

/-- Well-formedness of a system state between atomic steps: a node's throttled
flag is set exactly when its job is queued, the queue has no duplicates, and
all queued indices and all registered listeners are genuine node indices. -/
structure Wf [Inhabited V] [Inhabited S] (sys : Sys V S) : Prop where
  flagQueue : ∀ j, j < sys.nodes.length → (flagOf sys j = true ↔ j ∈ sys.queue)
  nodupQ : sys.queue.Nodup
  qBound : ∀ j ∈ sys.queue, j < sys.nodes.length
  sigTxnBound : ∀ i, i < sys.sigs.length → ∀ j ∈ (getSig sys i).txn, j < sys.nodes.length
  nodeTxnBound : ∀ m, m < sys.nodes.length → ∀ j ∈ (getNode sys m).txn, j < sys.nodes.length

/-- Node `e` is registered in no node's transaction set (true for any node
whose tracked function reads only signals). -/
def notInNodeTxns [Inhabited V] [Inhabited S] (e : Nat) (sys : Sys V S) : Prop :=
  ∀ m, m < sys.nodes.length → e ∉ (getNode sys m).txn

/-- Consistency invariant for a computed node `j` whose compute function is the
pure signal-only computation `b`: either a recompute is pending, or the stored
value equals the denotation of `b` at the current signal values and `j` is
registered on every signal `b` currently reads. -/
def InvC [DecidableEq V] [Inhabited V] [Inhabited S] (j : Nat) (b : Comp V V)
    (sys : Sys V S) : Prop :=
  flagOf sys j = true ∨
    (nodeState sys j = evalS (sigState sys) b ∧
     ∀ p ∈ readsS (sigState sys) b, j ∈ (getSig sys p.1).txn)

/-- The compute closure built by `takeValues` over upstream signal `i`: the
captured variables `state` and `isComplete` form the closure; once complete the
body returns the retained value without reading the upstream signal, otherwise
it reads the upstream signal, retaining non-null values and completing on the
first null. -/
def takeValuesBody {A : Type} (i : Nat) (cl : Option A × Bool) :
    Comp (Option A) ((Option A × Bool) × Option A) :=
  if cl.2 then .pure (cl, cl.1)
  else .readSig i (fun next =>
    match next with
    | some a => .pure ((some a, false), some a)
    | none => .pure ((cl.1, true), cl.1))

/-- Consistency invariant for a `takeValues` node `j` over upstream signal `i`:
the closure's retained value agrees with the node's stored value whenever
complete, and either a recompute is pending or the stored value is consistent
(equal to the retained value; and unless complete, equal to the upstream
signal's current value with the node registered on the upstream signal). -/
def InvT {A : Type} [DecidableEq A] (j i : Nat)
    (sys : Sys (Option A) (Option A × Bool)) : Prop :=
  ((getNode sys j).closure.2 = true → (getNode sys j).closure.1 = nodeState sys j) ∧
  (flagOf sys j = true ∨
    ((getNode sys j).closure.1 = nodeState sys j ∧
      ((getNode sys j).closure.2 = true ∨
        (nodeState sys j = sigState sys i ∧ j ∈ (getSig sys i).txn))))

/-- Store state for the tracking implementation's `useStore`: the state
signal's value, the pending (not yet resolved) asynchronous effects (each
modelled by the message it will resolve to, `none` for an empty resolution),
and the list of messages passed to `send` so far. -/
structure StoreSt (V M : Type) where
  state : V
  pending : List (Option M)
  sends : List M
deriving Repr, DecidableEq

/-- The store's `send`: synchronously compute `update(state(), msg)`, write the
new state to the state signal, and queue the transaction's effects. -/
def storeSend {M : Type} (update : V → M → V × List (Option M)) (m : M)
    (st : StoreSt V M) : StoreSt V M :=
  let r := update st.state m
  {state := r.1, pending := st.pending ++ r.2, sends := st.sends ++ [m]}

/-- Resolution of the pending effect at index `k`, mirroring `runEffect`:
`const msg = await effect; if (msg != null) send(msg)`.  An effect resolving
to nothing is dropped without a `send` call. -/
def resolveEffect {M : Type} (update : V → M → V × List (Option M)) (k : Nat)
    (st : StoreSt V M) : StoreSt V M :=
  match getD st.pending k none with
  | none =>
    if k < st.pending.length then {st with pending := st.pending.eraseIdx k} else st
  | some m => storeSend update m {st with pending := st.pending.eraseIdx k}

end Track

/-! ## The observer-based implementation (first source file) -/

namespace Obs

/-- State of one `signal` cell: the stored `value`, the persistent `observers`
set (observer ids in insertion order), and the `isUpdateScheduled` flag of the
signal's private throttling scheduler. -/
structure Sig (V : Type) where
  value : V
  observers : List Nat
  isUpdateScheduled : Bool
deriving Repr, DecidableEq

instance {V : Type} [Inhabited V] : Inhabited (Sig V) := ⟨⟨default, [], false⟩⟩

/-- An observer callback of the shape used by `sample`: ignore the dispatched
value, recompute `combine` over the current values of the source signals, and
write the result to the target signal. -/
structure Watcher (V : Type) where
  srcs : List Nat
  combine : List V → V
  tgt : Nat

/-- Whole-system state for the observer implementation: signals, the microtask
queue of signals whose `performUpdate` is pending, and per-observer run
counters (instrumentation counting callback invocations). -/
structure Sys (V : Type) where
  sigs : List (Sig V)
  queue : List Nat
  runCounts : List Nat
deriving Repr, DecidableEq

variable {V : Type}

/-- The signal accessed by index, defaulting for out-of-range indices. -/
def getSig [Inhabited V] (sys : Sys V) (i : Nat) : Sig V := getD sys.sigs i default

/-- Current value of signal `i`. -/
def sigValue [Inhabited V] (sys : Sys V) (i : Nat) : V := (getSig sys i).value

/-- Write a value to a signal, mirroring `setValue`: no-op when unchanged under
inequality comparison; otherwise store the new value and ask the signal's
throttling scheduler to dispatch (enqueue `performUpdate` unless one is
already scheduled — batching that solves the diamond problem). -/
def setValue [DecidableEq V] [Inhabited V] (i : Nat) (next : V) (sys : Sys V) : Sys V :=
  let sg := getSig sys i
  if sg.value = next then sys
  else
    let sys1 : Sys V := {sys with sigs := sys.sigs.set i {sg with value := next}}
    if (getSig sys1 i).isUpdateScheduled then sys1
    else {sys1 with
            sigs := sys1.sigs.set i {getSig sys1 i with isUpdateScheduled := true},
            queue := sys1.queue ++ [i]}

/-- Invoke observer `o`'s callback once: recompute from the current source
values and write the result downstream, incrementing the run counter. -/
def runWatcher [DecidableEq V] [Inhabited V] (w : Nat → Watcher V) (o : Nat)
    (sys : Sys V) : Sys V :=
  let ww := w o
  let v := ww.combine (ww.srcs.map (fun s => sigValue sys s))
  let sys1 := setValue ww.tgt v sys
  {sys1 with runCounts := sys1.runCounts.set o (getD sys1.runCounts o 0 + 1)}

/-- Run signal `i`'s pending `performUpdate`: dispatch to every registered
observer (with the value current at dispatch time), then clear the scheduler
flag. -/
def performUpdate [DecidableEq V] [Inhabited V] (w : Nat → Watcher V) (i : Nat)
    (sys : Sys V) : Sys V :=
  let sys1 := (getSig sys i).observers.foldl (fun s o => runWatcher w o s) sys
  {sys1 with sigs := sys1.sigs.set i {getSig sys1 i with isUpdateScheduled := false}}

/-- Pop and run one pending dispatch, if any. -/
def drainStep [DecidableEq V] [Inhabited V] (w : Nat → Watcher V) (sys : Sys V) : Sys V :=
  match sys.queue with
  | [] => sys
  | i :: rest => performUpdate w i {sys with queue := rest}

/-- Drain up to `n` pending dispatches. -/
def flushN [DecidableEq V] [Inhabited V] (w : Nat → Watcher V) : Nat → Sys V → Sys V
  | 0, sys => sys
  | n + 1, sys => flushN w n (drainStep w sys)

/-- Subscribe observer `o` to signal `i`, mirroring `observe`: the observer is
invoked immediately with the current value, then added to the observer set. -/
def observe [DecidableEq V] [Inhabited V] (w : Nat → Watcher V) (o : Nat) (i : Nat)
    (sys : Sys V) : Sys V :=
  let sys1 := runWatcher w o sys
  {sys1 with sigs :=
    sys1.sigs.set i {getSig sys1 i with observers := (getSig sys1 i).observers ++ [o]}}

/-- Construct `sample(triggers, resample)` with observer id `o`: create the
downstream signal initialized to `resample()` (one closure evaluation), then
observe each trigger with the shared callback (each subscription invokes the
callback once immediately). -/
def constructSample [DecidableEq V] [Inhabited V] (w : Nat → Watcher V) (o : Nat)
    (triggers : List Nat) (sys : Sys V) : Sys V :=
  let ww := w o
  let v0 := ww.combine (ww.srcs.map (fun s => sigValue sys s))
  let sys1 : Sys V :=
    {sys with sigs := sys.sigs ++ [⟨v0, [], false⟩],
              runCounts := sys.runCounts.set o (getD sys.runCounts o 0 + 1)}
  triggers.foldl (fun s i => observe w o i s) sys1

/-- Result of a reduction stepping function: an ordinary next state, or the
`Reduced` sentinel wrapping the final state. -/
inductive StepRes (V : Type) where
  | next (v : V)
  | reduced (v : V)
deriving Repr, DecidableEq

/-- Observable state of a `reductions(step, source, initial)` pipeline: the
derived signal's value, whether the upstream subscription was cancelled by a
`Reduced` sentinel, and whether construction crashed.  The crash case is real:
`reductions` binds `const cancel = value.observe(cb)` while `observe` invokes
`cb` synchronously with the current value, so a `Reduced` returned during that
immediate call runs `cancel()` before the `const` binding is initialized — a
`ReferenceError` in JavaScript (temporal dead zone). -/
structure RedSt (V : Type) where
  value : V
  cancelled : Bool
  crashed : Bool
deriving Repr, DecidableEq

/-- Construct the reduction: `useSignal(initial)` then subscribe to upstream,
whose `observe` immediately delivers the current upstream value `u0` to the
callback.  A `Reduced` result at this point crashes (see `RedSt`); otherwise
the stepped state is stored. -/
def reductionsInit (step : V → V → StepRes V) (initial : V) (u0 : V) : RedSt V :=
  match step initial u0 with
  | .reduced _ => {value := initial, cancelled := false, crashed := true}
  | .next n => {value := n, cancelled := false, crashed := false}

/-- Deliver one later upstream emission to the reduction's observer callback.
After a crash the subscription was never added; after a cancel it was removed;
in both cases the emission does not reach the callback.  Otherwise step the
state: a `Reduced` sentinel cancels the upstream subscription and stores the
wrapped value as the final state. -/
def reductionsEmit (step : V → V → StepRes V) (st : RedSt V) (v : V) : RedSt V :=
  if st.crashed ∨ st.cancelled then st
  else
    match step st.value v with
    | .reduced w => {value := w, cancelled := true, crashed := false}
    | .next n => {value := n, cancelled := false, crashed := false}

/-- Construct a reduction over an upstream signal currently holding `u0` and
deliver the given later emissions. -/
def reductionsRun (step : V → V → StepRes V) (initial u0 : V) (emissions : List V) :
    RedSt V :=
  emissions.foldl (reductionsEmit step) (reductionsInit step initial u0)

/-- A JavaScript value as far as the cancellation protocol is concerned:
either callable (a function, identified by an id) or one of several
non-callable shapes. -/
inductive JSVal where
  | fn (id : Nat)
  | num (n : Int)
  | str
  | nullv
  | undef
deriving Repr, DecidableEq

/-- Whether a value is callable (`typeof x === 'function'`). -/
def isFunction : JSVal → Bool
  | .fn _ => true
  | _ => false

/-- An object that can carry a cancel function under the hidden `__cancel__`
symbol; `payload` stands for all of the object's other observable state. -/
structure Carrier where
  payload : Nat
  cancelSlot : Option JSVal
deriving Repr, DecidableEq

/-- Associate a cancel function with an object, mirroring `setCancel`: throws
`TypeError` when the argument is not callable, otherwise stores it under the
hidden symbol and returns the same object. -/
def setCancel (obj : Carrier) (c : JSVal) : Except String Carrier :=
  match c with
  | .fn f => .ok {obj with cancelSlot := some (.fn f)}
  | _ => .error "TypeError: cancel must be a function"

/-- Invoke the associated cancel function if one is present, mirroring
`cancel`: returns the id of the function invoked, or `none` when the call is
a no-op. -/
def cancel (obj : Carrier) : Option Nat :=
  match obj.cancelSlot with
  | some (.fn f) => some f
  | _ => none

/-- Store state for the observer implementation's `useStore`.  Messages are
`Option M` because `run = async effect => send(await effect)` forwards the
resolved value to `send` unconditionally, including empty resolutions. -/
structure StoreSt (V M : Type) where
  state : V
  pending : List (Option M)
  sends : List (Option M)
deriving Repr, DecidableEq

/-- The store's `send`: synchronously compute `update(state(), msg)`, write the
new state, and queue the transaction's effects. -/
def storeSend {M : Type} (update : V → Option M → V × List (Option M)) (m : Option M)
    (st : StoreSt V M) : StoreSt V M :=
  let r := update st.state m
  {state := r.1, pending := st.pending ++ r.2, sends := st.sends ++ [m]}

/-- Resolution of the pending effect at index `k`, mirroring
`run = async effect => send(await effect)`: the resolved value is passed to
`send` unconditionally — there is no null check in this implementation. -/
def resolveEffect {M : Type} (update : V → Option M → V × List (Option M)) (k : Nat)
    (st : StoreSt V M) : StoreSt V M :=
  if k < st.pending.length then
    storeSend update (getD st.pending k none) {st with pending := st.pending.eraseIdx k}
  else st

end Obs

/-! ## Concrete scenario systems used by the claim theorems -/

namespace Track

/-- Signal values for the concrete scenarios: integers or null. -/
abbrev VI := Option Int

/-- Closure states for the concrete scenarios (as used by `takeValues`). -/
abbrev SI := Option Int × Bool

/-- The empty system, before any constructor runs. -/
def emptySys : Sys VI SI := ⟨[], [], [], []⟩

/-- Code table for the C1 scenario.  Node 0 is a computed over a gate signal
(index 0) and a value signal (index 1): when the gate holds `some 1` it reads
the value signal, otherwise it returns `some 0`.  Node 1 is an effect whose
tracked function reads the value signal and then the computed. -/
def progC1 : Nat → SI → Comp VI (SI × VI)
  | 0, cl => .readSig 0 (fun g =>
      if g = some 1 then .readSig 1 (fun sv => .pure (cl, sv)) else .pure (cl, some 0))
  | _, cl => .readSig 1 (fun _ => .readNode 0 (fun _ => .pure (cl, none)))

/-- The C1 scenario after construction: gate `some 0`, value `some 5`, the
computed (node 0) constructed before the effect (node 1). -/
def c1Base : Sys VI SI :=
  constructNode progC1 false (none, false)
    (constructNode progC1 true (none, false)
      (newSignal (some 5) (newSignal (some 0) emptySys)))

/-- The C1 scenario after opening the gate and flushing: the effect is now
registered in the value signal's transaction ahead of the computed. -/
def c1Ready : Sys VI SI := flushN progC1 4 (send 0 (some 1) c1Base)

/-- The C1 scenario after a single write to the value signal in a fresh tick,
fully drained. -/
def c1After : Sys VI SI := flushN progC1 4 (send 1 (some 9) c1Ready)

/-- The compute function of the C2 scenario's computed, as a read tree:
`() => a() + 1` over signal 0. -/
def bC2 : Comp VI VI := .readSig 0 (fun v => .pure (v.map (· + 1)))

/-- Code table for the C2 scenario: node 0 is `useComputed(() => a() + 1)`. -/
def progC2 : Nat → SI → Comp VI (SI × VI) := fun _ cl => mapC (fun v => (cl, v)) bC2

/-- The C2 scenario after construction: signal 0 holds `some 0`, the computed
holds `some 1`. -/
def c2Base : Sys VI SI := constructNode progC2 true (none, false) (newSignal (some 0) emptySys)

/-- Code table for the C3 scenario: node 0 is a tracked function that reads a
gate signal (index 0) and reads signal 1 only when the gate holds `some 1`. -/
def progC3 : Nat → SI → Comp VI (SI × VI) := fun _ cl =>
  .readSig 0 (fun g =>
    if g = some 1 then .readSig 1 (fun xv => .pure (cl, xv)) else .pure (cl, some 0))

/-- The C3 scenario after construction: gate open (`some 1`), signal 1 holds
`some 5`, so the construction run read both signals. -/
def c3Base : Sys VI SI :=
  constructNode progC3 false (none, false)
    (newSignal (some 5) (newSignal (some 1) emptySys))

/-- The C3 scenario after closing the gate and flushing: the most recent run
read only the gate, but the stale registration on signal 1 remains. -/
def c3Mid : Sys VI SI := flushN progC3 3 (send 0 (some 0) c3Base)

/-- The C3 scenario after a subsequent write to signal 1, fully drained. -/
def c3After : Sys VI SI := flushN progC3 3 (send 1 (some 7) c3Mid)

/-- The C3 scenario after one further write to signal 1, fully drained. -/
def c3Final : Sys VI SI := flushN progC3 3 (send 1 (some 8) c3After)

/-- Code table for a plain effect whose tracked function reads signal 0. -/
def progE : Nat → SI → Comp VI (SI × VI) := fun _ cl => .readSig 0 (fun v => .pure (cl, v))

/-- A one-signal system with the plain effect constructed over it. -/
def e1Base : Sys VI SI := constructNode progE false (none, false) (newSignal (some 0) emptySys)

/-- A two-signal system where the effect reads only signal 0; signal 1 has no
registered listener. -/
def e2Base : Sys VI SI :=
  constructNode progE false (none, false) (newSignal (some 1) (newSignal (some 0) emptySys))

/-- Code table for the C10 scenario: node 0 is `takeValues` over signal 0. -/
def progT : Nat → SI → Comp VI (SI × VI) := fun _ cl => takeValuesBody 0 cl

/-- The C10 scenario: `takeValues` constructed over a signal holding `some 1`
(the untracked initial read seeds the closure). -/
def t10Base : Sys VI SI :=
  constructNode progT true (some 1, false) (newSignal (some 1) emptySys)

/-- The C10 edge scenario: `takeValues` constructed over a signal that is
already null; the construction run completes immediately, retaining null. -/
def t10Null : Sys VI SI :=
  constructNode progT true (none, false) (newSignal none emptySys)

/-- A store update function that counts calls (for the C4 counterexample the
observer-based variant of this is used). -/
def updCount : Nat → Nat → Nat × List (Option Nat) := fun s _ => (s + 1, [])

end Track

namespace Obs

/-- The C8 scenario's single observer: the `sample` callback
`() => setDownstream(x() + y())` over trigger signals 0 and 1, writing to the
downstream signal 2. -/
def wC8 : Nat → Watcher Int := fun _ => ⟨[0, 1], fun vs => vs.foldl (· + ·) 0, 2⟩

/-- The C8 scenario before `sample` is constructed: `x = 1`, `y = 2`, one run
counter slot for the resample closure. -/
def c8Pre : Sys Int := ⟨[⟨1, [], false⟩, ⟨2, [], false⟩], [], [0]⟩

/-- The C8 scenario after `sample([x, y], () => x() + y())` is constructed. -/
def c8Base : Sys Int := constructSample wC8 0 [0, 1] c8Pre

/-- The C8 scenario after writing `x := 10` and `y := 20` in the same tick and
flushing all scheduled dispatches. -/
def c8After : Sys Int := flushN wC8 4 (setValue 1 20 (setValue 0 10 c8Base))

/-- A store update function that counts how many times it is invoked. -/
def updCount0 : Nat → Option Nat → Nat × List (Option Nat) := fun s _ => (s + 1, [])

/-- A store with one pending effect that resolves to nothing. -/
def stPendingEmpty : StoreSt Nat Nat := ⟨0, [none], []⟩

/-- A stepping function that completes the reduction on the very first value
it receives. -/
def stepImmediate : Int → Int → StepRes Int := fun _ v => .reduced v

end Obs

/-! ## List access lemmas -/

theorem getD_set_self {α : Type} (l : List α) (i : Nat) (a d : α) (h : i < l.length) :
    getD (l.set i a) i d = a := by
  simp [getD, List.getElem?_set_self', h]

theorem getD_set_ne {α : Type} (l : List α) (i j : Nat) (a d : α) (h : i ≠ j) :
    getD (l.set i a) j d = getD l j d := by
  simp [getD, List.getElem?_set_ne h]

theorem getD_set_oob {α : Type} (l : List α) (i : Nat) (a : α) (h : ¬ i < l.length) :
    l.set i a = l := by
  exact List.set_eq_of_length_le (by omega)

theorem getD_oob {α : Type} (l : List α) (i : Nat) (d : α) (h : ¬ i < l.length) :
    getD l i d = d := by
  simp only [getD]
  rw [List.get?_eq_none.2 (by omega)]
  rfl

theorem getD_append_right {α : Type} (l : List α) (a d : α) :
    getD (l ++ [a]) l.length d = a := by
  simp [getD, List.getElem?_append_right (Nat.le_refl l.length)]

theorem getD_append_left {α : Type} (l : List α) (tail : List α) (i : Nat) (d : α)
    (h : i < l.length) : getD (l ++ tail) i d = getD l i d := by
  simp [getD, List.getElem?_append_left h]

/-! ## Lemmas about the dependency-tracking implementation -/

namespace Track

variable {V S A B : Type}

theorem addListener_mono {t : Option Nat} {l : List Nat} {a : Nat} (h : a ∈ l) :
    a ∈ addListener t l := by
  cases t with
  | none => exact h
  | some j =>
    simp only [addListener]
    split
    · exact h
    · exact List.mem_append_left _ h

theorem addListener_sub {t : Option Nat} {l : List Nat} {a : Nat}
    (h : a ∈ addListener t l) : a ∈ l ∨ t = some a := by
  cases t with
  | none => exact Or.inl h
  | some j =>
    simp only [addListener] at h
    split at h
    · exact Or.inl h
    · rcases List.mem_append.1 h with h1 | h1
      · exact Or.inl h1
      · simp at h1; subst h1; exact Or.inr rfl

theorem addListener_self (j : Nat) (l : List Nat) : j ∈ addListener (some j) l := by
  simp only [addListener]
  split
  · assumption
  · simp

section RegLemmas

variable [Inhabited V] [Inhabited S]

theorem regSig_nodes (t : Option Nat) (i : Nat) (sys : Sys V S) :
    (regSig t i sys).nodes = sys.nodes := rfl

theorem regSig_queue (t : Option Nat) (i : Nat) (sys : Sys V S) :
    (regSig t i sys).queue = sys.queue := rfl

theorem regSig_log (t : Option Nat) (i : Nat) (sys : Sys V S) :
    (regSig t i sys).log = sys.log := rfl

theorem regSig_sigs_length (t : Option Nat) (i : Nat) (sys : Sys V S) :
    (regSig t i sys).sigs.length = sys.sigs.length := by
  simp [regSig]

theorem regSig_sigState (t : Option Nat) (i : Nat) (sys : Sys V S) (i' : Nat) :
    sigState (regSig t i sys) i' = sigState sys i' := by
  by_cases hlt : i < sys.sigs.length
  · by_cases he : i = i'
    · subst he
      simp [sigState, getSig, regSig, getD_set_self _ _ _ _ hlt]
    · simp [sigState, getSig, regSig, getD_set_ne _ _ _ _ _ he]
  · simp [regSig, getD_set_oob _ _ _ hlt]

theorem regSig_nodeState (t : Option Nat) (i : Nat) (sys : Sys V S) (j : Nat) :
    nodeState (regSig t i sys) j = nodeState sys j := rfl

theorem regSig_txn_mono (t : Option Nat) (i : Nat) (sys : Sys V S) (i' a : Nat)
    (h : a ∈ (getSig sys i').txn) : a ∈ (getSig (regSig t i sys) i').txn := by
  by_cases hlt : i < sys.sigs.length
  · by_cases he : i = i'
    · subst he
      simp only [getSig, regSig]
      rw [getD_set_self _ _ _ _ hlt]
      exact addListener_mono h
    · simp only [getSig, regSig]
      rw [getD_set_ne _ _ _ _ _ he]
      exact h
  · simp only [getSig, regSig]
    rw [getD_set_oob _ _ _ hlt]
    exact h

theorem regSig_txn_sub (t : Option Nat) (i : Nat) (sys : Sys V S) (i' a : Nat)
    (h : a ∈ (getSig (regSig t i sys) i').txn) :
    a ∈ (getSig sys i').txn ∨ t = some a := by
  by_cases hlt : i < sys.sigs.length
  · by_cases he : i = i'
    · subst he
      simp only [getSig, regSig] at h
      rw [getD_set_self _ _ _ _ hlt] at h
      exact addListener_sub h
    · simp only [getSig, regSig] at h
      rw [getD_set_ne _ _ _ _ _ he] at h
      exact Or.inl h
  · simp only [getSig, regSig] at h
    rw [getD_set_oob _ _ _ hlt] at h
    exact Or.inl h

theorem regSig_txn_self (t : Option Nat) (i : Nat) (sys : Sys V S)
    (hlt : i < sys.sigs.length) :
    (getSig (regSig t i sys) i).txn = addListener t (getSig sys i).txn := by
  simp only [getSig, regSig]
  rw [getD_set_self _ _ _ _ hlt]

theorem regNode_sigs (t : Option Nat) (j : Nat) (sys : Sys V S) :
    (regNode t j sys).sigs = sys.sigs := rfl

theorem regNode_queue (t : Option Nat) (j : Nat) (sys : Sys V S) :
    (regNode t j sys).queue = sys.queue := rfl

theorem regNode_log (t : Option Nat) (j : Nat) (sys : Sys V S) :
    (regNode t j sys).log = sys.log := rfl

theorem regNode_nodes_length (t : Option Nat) (j : Nat) (sys : Sys V S) :
    (regNode t j sys).nodes.length = sys.nodes.length := by
  simp [regNode]

theorem regNode_nodeCore (t : Option Nat) (j : Nat) (sys : Sys V S) (j' : Nat) :
    nodeCore (getNode (regNode t j sys) j') = nodeCore (getNode sys j') := by
  by_cases hlt : j < sys.nodes.length
  · by_cases he : j = j'
    · subst he
      simp [nodeCore, getNode, regNode, getD_set_self _ _ _ _ hlt]
    · simp [nodeCore, getNode, regNode, getD_set_ne _ _ _ _ _ he]
  · simp [regNode, getD_set_oob _ _ _ hlt]

theorem regNode_sigState (t : Option Nat) (j : Nat) (sys : Sys V S) (i : Nat) :
    sigState (regNode t j sys) i = sigState sys i := rfl

theorem regNode_nodeState (t : Option Nat) (j : Nat) (sys : Sys V S) (j' : Nat) :
    nodeState (regNode t j sys) j' = nodeState sys j' := by
  have h := regNode_nodeCore t j sys j'
  simp only [nodeCore, Prod.mk.injEq] at h
  exact h.2.1

theorem regNode_sig_txn (t : Option Nat) (j : Nat) (sys : Sys V S) (i : Nat) :
    (getSig (regNode t j sys) i).txn = (getSig sys i).txn := rfl

theorem regNode_node_txn_mono (t : Option Nat) (j : Nat) (sys : Sys V S) (j' a : Nat)
    (h : a ∈ (getNode sys j').txn) : a ∈ (getNode (regNode t j sys) j').txn := by
  by_cases hlt : j < sys.nodes.length
  · by_cases he : j = j'
    · subst he
      simp only [getNode, regNode]
      rw [getD_set_self _ _ _ _ hlt]
      exact addListener_mono h
    · simp only [getNode, regNode]
      rw [getD_set_ne _ _ _ _ _ he]
      exact h
  · simp only [getNode, regNode]
    rw [getD_set_oob _ _ _ hlt]
    exact h

theorem regNode_node_txn_sub (t : Option Nat) (j : Nat) (sys : Sys V S) (j' a : Nat)
    (h : a ∈ (getNode (regNode t j sys) j').txn) :
    a ∈ (getNode sys j').txn ∨ t = some a := by
  by_cases hlt : j < sys.nodes.length
  · by_cases he : j = j'
    · subst he
      simp only [getNode, regNode] at h
      rw [getD_set_self _ _ _ _ hlt] at h
      exact addListener_sub h
    · simp only [getNode, regNode] at h
      rw [getD_set_ne _ _ _ _ _ he] at h
      exact Or.inl h
  · simp only [getNode, regNode] at h
    rw [getD_set_oob _ _ _ hlt] at h
    exact Or.inl h

end RegLemmas

theorem evalC_congr {sv sv' nv nv' : Nat → V} (c : Comp V A)
    (hsv : ∀ i, sv i = sv' i) (hnv : ∀ j, nv j = nv' j) :
    evalC sv nv c = evalC sv' nv' c := by
  induction c with
  | pure a => rfl
  | readSig i k ih => simp only [evalC, hsv]; exact ih _
  | readNode j k ih => simp only [evalC, hnv]; exact ih _

theorem readsC_congr {sv sv' nv nv' : Nat → V} (c : Comp V A)
    (hsv : ∀ i, sv i = sv' i) (hnv : ∀ j, nv j = nv' j) :
    readsC sv nv c = readsC sv' nv' c := by
  induction c with
  | pure a => rfl
  | readSig i k ih => simp only [readsC, hsv]; rw [ih]
  | readNode j k ih => simp only [readsC, hnv]; exact ih _

theorem readsC_val {sv nv : Nat → V} (c : Comp V A) :
    ∀ p ∈ readsC sv nv c, p.2 = sv p.1 := by
  induction c with
  | pure a => intro p hp; simp [readsC] at hp
  | readSig i k ih =>
    intro p hp
    simp only [readsC, List.mem_cons] at hp
    rcases hp with hp | hp
    · subst hp; rfl
    · exact ih _ p hp
  | readNode j k ih =>
    intro p hp
    exact ih _ p hp

section TrackRun

variable [DecidableEq V] [Inhabited V] [Inhabited S]

theorem track_queue (t : Option Nat) (c : Comp V A) (sys : Sys V S) :
    (track t c sys).1.queue = sys.queue := by
  induction c generalizing sys with
  | pure a => rfl
  | readSig i k ih => simp only [track]; rw [ih]; rfl
  | readNode j k ih => simp only [track]; rw [ih]; rfl

theorem track_log (t : Option Nat) (c : Comp V A) (sys : Sys V S) :
    (track t c sys).1.log = sys.log := by
  induction c generalizing sys with
  | pure a => rfl
  | readSig i k ih => simp only [track]; rw [ih]; rfl
  | readNode j k ih => simp only [track]; rw [ih]; rfl

theorem track_sigs_length (t : Option Nat) (c : Comp V A) (sys : Sys V S) :
    (track t c sys).1.sigs.length = sys.sigs.length := by
  induction c generalizing sys with
  | pure a => rfl
  | readSig i k ih => simp only [track]; rw [ih, regSig_sigs_length]
  | readNode j k ih => simp only [track]; rw [ih]; rfl

theorem track_nodes_length (t : Option Nat) (c : Comp V A) (sys : Sys V S) :
    (track t c sys).1.nodes.length = sys.nodes.length := by
  induction c generalizing sys with
  | pure a => rfl
  | readSig i k ih => simp only [track]; rw [ih]; rfl
  | readNode j k ih => simp only [track]; rw [ih, regNode_nodes_length]

theorem track_sigState (t : Option Nat) (c : Comp V A) (sys : Sys V S) (i' : Nat) :
    sigState (track t c sys).1 i' = sigState sys i' := by
  induction c generalizing sys with
  | pure a => rfl
  | readSig i k ih => simp only [track]; rw [ih, regSig_sigState]
  | readNode j k ih => simp only [track]; rw [ih]; rfl

theorem track_nodeCore (t : Option Nat) (c : Comp V A) (sys : Sys V S) (j' : Nat) :
    nodeCore (getNode (track t c sys).1 j') = nodeCore (getNode sys j') := by
  induction c generalizing sys with
  | pure a => rfl
  | readSig i k ih => simp only [track]; rw [ih]; rfl
  | readNode j k ih => simp only [track]; rw [ih, regNode_nodeCore]

theorem track_nodeState (t : Option Nat) (c : Comp V A) (sys : Sys V S) (j' : Nat) :
    nodeState (track t c sys).1 j' = nodeState sys j' := by
  have h := track_nodeCore t c sys j'
  simp only [nodeCore, Prod.mk.injEq] at h
  exact h.2.1

theorem track_flagOf (t : Option Nat) (c : Comp V A) (sys : Sys V S) (j' : Nat) :
    flagOf (track t c sys).1 j' = flagOf sys j' := by
  have h := track_nodeCore t c sys j'
  simp only [nodeCore, Prod.mk.injEq] at h
  exact h.2.2.2

theorem track_closure (t : Option Nat) (c : Comp V A) (sys : Sys V S) (j' : Nat) :
    (getNode (track t c sys).1 j').closure = (getNode sys j').closure := by
  have h := track_nodeCore t c sys j'
  simp only [nodeCore, Prod.mk.injEq] at h
  exact h.2.2.1

theorem track_isComputed (t : Option Nat) (c : Comp V A) (sys : Sys V S) (j' : Nat) :
    (getNode (track t c sys).1 j').isComputed = (getNode sys j').isComputed := by
  have h := track_nodeCore t c sys j'
  simp only [nodeCore, Prod.mk.injEq] at h
  exact h.1

theorem track_val (t : Option Nat) (c : Comp V A) (sys : Sys V S) :
    (track t c sys).2.1 = evalC (sigState sys) (nodeState sys) c := by
  induction c generalizing sys with
  | pure a => rfl
  | readSig i k ih =>
    simp only [track, evalC]
    rw [ih]
    exact evalC_congr _ (regSig_sigState t i sys) (regSig_nodeState t i sys)
  | readNode j k ih =>
    simp only [track, evalC]
    rw [ih]
    exact evalC_congr _ (regNode_sigState t j sys) (regNode_nodeState t j sys)

theorem track_reads (t : Option Nat) (c : Comp V A) (sys : Sys V S) :
    (track t c sys).2.2 = readsC (sigState sys) (nodeState sys) c := by
  induction c generalizing sys with
  | pure a => rfl
  | readSig i k ih =>
    simp only [track, readsC]
    rw [ih]
    rw [readsC_congr _ (regSig_sigState t i sys) (regSig_nodeState t i sys)]
  | readNode j k ih =>
    simp only [track, readsC]
    rw [ih]
    rw [readsC_congr _ (regNode_sigState t j sys) (regNode_nodeState t j sys)]

theorem track_sig_txn_mono (t : Option Nat) (c : Comp V A) (sys : Sys V S) (i' a : Nat)
    (h : a ∈ (getSig sys i').txn) : a ∈ (getSig (track t c sys).1 i').txn := by
  induction c generalizing sys with
  | pure a => exact h
  | readSig i k ih => simp only [track]; exact ih _ _ (regSig_txn_mono t i sys i' a h)
  | readNode j k ih => simp only [track]; exact ih _ _ h

theorem track_sig_txn_sub (t : Option Nat) (c : Comp V A) (sys : Sys V S) (i' a : Nat)
    (h : a ∈ (getSig (track t c sys).1 i').txn) :
    a ∈ (getSig sys i').txn ∨ t = some a := by
  induction c generalizing sys with
  | pure a => exact Or.inl h
  | readSig i k ih =>
    simp only [track] at h
    rcases ih _ _ h with h1 | h1
    · exact regSig_txn_sub t i sys i' a h1
    · exact Or.inr h1
  | readNode j k ih =>
    simp only [track] at h
    exact ih _ (regNode t j sys) h

theorem track_node_txn_mono (t : Option Nat) (c : Comp V A) (sys : Sys V S) (m a : Nat)
    (h : a ∈ (getNode sys m).txn) : a ∈ (getNode (track t c sys).1 m).txn := by
  induction c generalizing sys with
  | pure a => exact h
  | readSig i k ih => simp only [track]; exact ih _ _ h
  | readNode j k ih => simp only [track]; exact ih _ _ (regNode_node_txn_mono t j sys m a h)

theorem track_node_txn_sub (t : Option Nat) (c : Comp V A) (sys : Sys V S) (m a : Nat)
    (h : a ∈ (getNode (track t c sys).1 m).txn) :
    a ∈ (getNode sys m).txn ∨ t = some a := by
  induction c generalizing sys with
  | pure a => exact Or.inl h
  | readSig i k ih =>
    simp only [track] at h
    exact ih _ (regSig t i sys) h
  | readNode j k ih =>
    simp only [track] at h
    rcases ih _ (regNode t j sys) h with h1 | h1
    · exact regNode_node_txn_sub t j sys m a h1
    · exact Or.inr h1

theorem track_node_txn_sigOnly (t : Option Nat) (c : Comp V A) (sys : Sys V S)
    (hc : SigOnly c) (m : Nat) :
    (getNode (track t c sys).1 m).txn = (getNode sys m).txn := by
  induction hc generalizing sys with
  | pure a => rfl
  | readSig i k ih ih2 => simp only [track]; exact ih2 _ _

theorem track_reg (j : Nat) (c : Comp V A) (sys : Sys V S) :
    ∀ p ∈ readsC (sigState sys) (nodeState sys) c, p.1 < sys.sigs.length →
      j ∈ (getSig (track (some j) c sys).1 p.1).txn := by
  induction c generalizing sys with
  | pure a => intro p hp; simp [readsC] at hp
  | readSig i k ih =>
    intro p hp hlt
    simp only [readsC, List.mem_cons] at hp
    rcases hp with hp | hp
    · subst hp
      simp only [track]
      apply track_sig_txn_mono
      rw [regSig_txn_self _ _ _ hlt]
      exact addListener_self j _
    · simp only [track]
      have hr : readsC (sigState sys) (nodeState sys) (k (sigState sys i)) =
          readsC (sigState (regSig (some j) i sys)) (nodeState (regSig (some j) i sys))
            (k (sigState sys i)) :=
        readsC_congr _ (fun i' => (regSig_sigState (some j) i sys i').symm)
          (fun j' => (regSig_nodeState (some j) i sys j').symm)
      rw [hr] at hp
      apply ih _ _ p hp
      rw [regSig_sigs_length]
      exact hlt
  | readNode m k ih =>
    intro p hp hlt
    simp only [readsC] at hp
    simp only [track]
    have hr : readsC (sigState sys) (nodeState sys) (k (nodeState sys m)) =
        readsC (sigState (regNode (some j) m sys)) (nodeState (regNode (some j) m sys))
          (k (nodeState sys m)) :=
      readsC_congr _ (fun i' => (regNode_sigState (some j) m sys i').symm)
        (fun j' => (regNode_nodeState (some j) m sys j').symm)
    rw [hr] at hp
    exact ih _ _ p hp hlt

end TrackRun

section ScheduleLemmas

variable [DecidableEq V] [Inhabited V] [Inhabited S]

theorem schedule_sigs (k : Nat) (sys : Sys V S) : (schedule k sys).sigs = sys.sigs := by
  unfold schedule; split <;> rfl

theorem schedule_log (k : Nat) (sys : Sys V S) : (schedule k sys).log = sys.log := by
  unfold schedule; split <;> rfl

theorem schedule_nodes_length (k : Nat) (sys : Sys V S) :
    (schedule k sys).nodes.length = sys.nodes.length := by
  unfold schedule; split
  · rfl
  · simp

theorem schedule_getNode_other (k : Nat) (sys : Sys V S) (j : Nat) (h : j ≠ k) :
    getNode (schedule k sys) j = getNode sys j := by
  unfold schedule; split
  · rfl
  · simp only [getNode]
    rw [getD_set_ne _ _ _ _ _ (fun he => h he.symm)]

theorem schedule_nodeState (k : Nat) (sys : Sys V S) (j : Nat) :
    nodeState (schedule k sys) j = nodeState sys j := by
  by_cases h : j = k
  · subst h
    unfold schedule; split
    · rfl
    · by_cases hlt : j < sys.nodes.length
      · simp [nodeState, getNode, getD_set_self _ _ _ _ hlt]
      · simp [nodeState, getNode, getD_set_oob _ _ _ hlt]
  · simp [nodeState, schedule_getNode_other k sys j h]

theorem schedule_closure (k : Nat) (sys : Sys V S) (j : Nat) :
    (getNode (schedule k sys) j).closure = (getNode sys j).closure := by
  by_cases h : j = k
  · subst h
    unfold schedule; split
    · rfl
    · by_cases hlt : j < sys.nodes.length
      · simp [getNode, getD_set_self _ _ _ _ hlt]
      · simp [getNode, getD_set_oob _ _ _ hlt]
  · rw [schedule_getNode_other k sys j h]

theorem schedule_isComputed (k : Nat) (sys : Sys V S) (j : Nat) :
    (getNode (schedule k sys) j).isComputed = (getNode sys j).isComputed := by
  by_cases h : j = k
  · subst h
    unfold schedule; split
    · rfl
    · by_cases hlt : j < sys.nodes.length
      · simp [getNode, getD_set_self _ _ _ _ hlt]
      · simp [getNode, getD_set_oob _ _ _ hlt]
  · rw [schedule_getNode_other k sys j h]

theorem schedule_node_txn (k : Nat) (sys : Sys V S) (j : Nat) :
    (getNode (schedule k sys) j).txn = (getNode sys j).txn := by
  by_cases h : j = k
  · subst h
    unfold schedule; split
    · rfl
    · by_cases hlt : j < sys.nodes.length
      · simp [getNode, getD_set_self _ _ _ _ hlt]
      · simp [getNode, getD_set_oob _ _ _ hlt]
  · rw [schedule_getNode_other k sys j h]

theorem schedule_flag_mono (k : Nat) (sys : Sys V S) (j : Nat)
    (h : flagOf sys j = true) : flagOf (schedule k sys) j = true := by
  by_cases he : j = k
  · subst he
    unfold schedule; split
    · exact h
    · by_cases hlt : j < sys.nodes.length
      · simp [flagOf, getNode, getD_set_self _ _ _ _ hlt]
      · simp only [flagOf, getNode]
        rw [getD_set_oob _ _ _ hlt]
        exact h
  · simp only [flagOf]
    rw [schedule_getNode_other k sys j he]
    exact h

theorem schedule_flag_other (k : Nat) (sys : Sys V S) (j : Nat) (h : j ≠ k) :
    flagOf (schedule k sys) j = flagOf sys j := by
  simp only [flagOf]
  rw [schedule_getNode_other k sys j h]

theorem schedule_flag_self (k : Nat) (sys : Sys V S) (hlt : k < sys.nodes.length) :
    flagOf (schedule k sys) k = true := by
  unfold schedule; split
  · assumption
  · simp [flagOf, getNode, getD_set_self _ _ _ _ hlt]

theorem schedule_queue_cases (k : Nat) (sys : Sys V S) :
    (flagOf sys k = true ∧ (schedule k sys).queue = sys.queue) ∨
      (flagOf sys k = false ∧ (schedule k sys).queue = sys.queue ++ [k]) := by
  unfold schedule
  by_cases h : (getNode sys k).isScheduled
  · left; constructor
    · exact h
    · simp [h]
  · right; constructor
    · simpa [flagOf] using h
    · simp [h]

theorem schedule_queue_sub (k : Nat) (sys : Sys V S) (a : Nat)
    (h : a ∈ (schedule k sys).queue) : a ∈ sys.queue ∨ a = k := by
  rcases schedule_queue_cases k sys with ⟨_, hq⟩ | ⟨_, hq⟩
  · rw [hq] at h; exact Or.inl h
  · rw [hq] at h
    rcases List.mem_append.1 h with h1 | h1
    · exact Or.inl h1
    · simp at h1; exact Or.inr h1

theorem schedule_queue_count_other (k : Nat) (sys : Sys V S) (e : Nat) (h : e ≠ k) :
    (schedule k sys).queue.count e = sys.queue.count e := by
  rcases schedule_queue_cases k sys with ⟨_, hq⟩ | ⟨_, hq⟩
  · rw [hq]
  · rw [hq]
    simp [List.count_append, List.count_singleton, h]

theorem schedule_queue_mono (k : Nat) (sys : Sys V S) (a : Nat) (h : a ∈ sys.queue) :
    a ∈ (schedule k sys).queue := by
  rcases schedule_queue_cases k sys with ⟨_, hq⟩ | ⟨_, hq⟩
  · rw [hq]; exact h
  · rw [hq]; exact List.mem_append_left _ h

theorem scheduleAll_sigs (l : List Nat) (sys : Sys V S) :
    (scheduleAll l sys).sigs = sys.sigs := by
  induction l generalizing sys with
  | nil => rfl
  | cons a rest ih =>
    simp only [scheduleAll, List.foldl_cons] at *
    rw [ih, schedule_sigs]

theorem scheduleAll_log (l : List Nat) (sys : Sys V S) :
    (scheduleAll l sys).log = sys.log := by
  induction l generalizing sys with
  | nil => rfl
  | cons a rest ih =>
    simp only [scheduleAll, List.foldl_cons] at *
    rw [ih, schedule_log]

theorem scheduleAll_nodes_length (l : List Nat) (sys : Sys V S) :
    (scheduleAll l sys).nodes.length = sys.nodes.length := by
  induction l generalizing sys with
  | nil => rfl
  | cons a rest ih =>
    simp only [scheduleAll, List.foldl_cons] at *
    rw [ih, schedule_nodes_length]

theorem scheduleAll_nodeState (l : List Nat) (sys : Sys V S) (j : Nat) :
    nodeState (scheduleAll l sys) j = nodeState sys j := by
  induction l generalizing sys with
  | nil => rfl
  | cons a rest ih =>
    simp only [scheduleAll, List.foldl_cons] at *
    rw [ih, schedule_nodeState]

theorem scheduleAll_closure (l : List Nat) (sys : Sys V S) (j : Nat) :
    (getNode (scheduleAll l sys) j).closure = (getNode sys j).closure := by
  induction l generalizing sys with
  | nil => rfl
  | cons a rest ih =>
    simp only [scheduleAll, List.foldl_cons] at *
    rw [ih, schedule_closure]

theorem scheduleAll_isComputed (l : List Nat) (sys : Sys V S) (j : Nat) :
    (getNode (scheduleAll l sys) j).isComputed = (getNode sys j).isComputed := by
  induction l generalizing sys with
  | nil => rfl
  | cons a rest ih =>
    simp only [scheduleAll, List.foldl_cons] at *
    rw [ih, schedule_isComputed]

theorem scheduleAll_node_txn (l : List Nat) (sys : Sys V S) (j : Nat) :
    (getNode (scheduleAll l sys) j).txn = (getNode sys j).txn := by
  induction l generalizing sys with
  | nil => rfl
  | cons a rest ih =>
    simp only [scheduleAll, List.foldl_cons] at *
    rw [ih, schedule_node_txn]

theorem scheduleAll_flag_mono (l : List Nat) (sys : Sys V S) (j : Nat)
    (h : flagOf sys j = true) : flagOf (scheduleAll l sys) j = true := by
  induction l generalizing sys with
  | nil => exact h
  | cons a rest ih =>
    simp only [scheduleAll, List.foldl_cons] at *
    exact ih _ (schedule_flag_mono a sys j h)

theorem scheduleAll_flag_notMem (l : List Nat) (sys : Sys V S) (j : Nat) (h : j ∉ l) :
    flagOf (scheduleAll l sys) j = flagOf sys j := by
  induction l generalizing sys with
  | nil => rfl
  | cons a rest ih =>
    simp only [List.mem_cons, not_or] at h
    simp only [scheduleAll, List.foldl_cons] at *
    rw [ih _ h.2, schedule_flag_other a sys j h.1]

theorem scheduleAll_flag_mem (l : List Nat) (sys : Sys V S) (j : Nat) (h : j ∈ l)
    (hlt : j < sys.nodes.length) : flagOf (scheduleAll l sys) j = true := by
  induction l generalizing sys with
  | nil => simp at h
  | cons a rest ih =>
    simp only [scheduleAll, List.foldl_cons] at *
    rcases List.mem_cons.1 h with he | hm
    · subst he
      exact scheduleAll_flag_mono rest _ j (schedule_flag_self j sys hlt)
    · exact ih (schedule a sys) hm (by rw [schedule_nodes_length]; exact hlt)

theorem scheduleAll_flag_sub (l : List Nat) (sys : Sys V S) (j : Nat)
    (h : flagOf (scheduleAll l sys) j = true) : flagOf sys j = true ∨ j ∈ l := by
  induction l generalizing sys with
  | nil => exact Or.inl h
  | cons a rest ih =>
    simp only [scheduleAll, List.foldl_cons] at h
    rcases ih _ h with h1 | h1
    · by_cases he : j = a
      · exact Or.inr (by simp [he])
      · rw [schedule_flag_other a sys j he] at h1
        exact Or.inl h1
    · exact Or.inr (List.mem_cons_of_mem _ h1)

theorem scheduleAll_queue_count_other (l : List Nat) (sys : Sys V S) (e : Nat)
    (h : e ∉ l) : (scheduleAll l sys).queue.count e = sys.queue.count e := by
  induction l generalizing sys with
  | nil => rfl
  | cons a rest ih =>
    simp only [List.mem_cons, not_or] at h
    simp only [scheduleAll, List.foldl_cons] at *
    rw [ih _ h.2, schedule_queue_count_other a sys e h.1]

theorem scheduleAll_queue_sub (l : List Nat) (sys : Sys V S) (a : Nat)
    (h : a ∈ (scheduleAll l sys).queue) : a ∈ sys.queue ∨ a ∈ l := by
  induction l generalizing sys with
  | nil => exact Or.inl h
  | cons b rest ih =>
    simp only [scheduleAll, List.foldl_cons] at h
    rcases ih _ h with h1 | h1
    · rcases schedule_queue_sub b sys a h1 with h2 | h2
      · exact Or.inl h2
      · exact Or.inr (by simp [h2])
    · exact Or.inr (List.mem_cons_of_mem _ h1)

theorem scheduleAll_queue_mono (l : List Nat) (sys : Sys V S) (a : Nat)
    (h : a ∈ sys.queue) : a ∈ (scheduleAll l sys).queue := by
  induction l generalizing sys with
  | nil => exact h
  | cons b rest ih =>
    simp only [scheduleAll, List.foldl_cons] at *
    exact ih _ (schedule_queue_mono b sys a h)

theorem wfq_schedule (k : Nat) (sys : Sys V S) (hk : k < sys.nodes.length)
    (hfq : ∀ j, j < sys.nodes.length → (flagOf sys j = true ↔ j ∈ sys.queue))
    (hnd : sys.queue.Nodup) (hqb : ∀ j ∈ sys.queue, j < sys.nodes.length) :
    (∀ j, j < (schedule k sys).nodes.length →
        (flagOf (schedule k sys) j = true ↔ j ∈ (schedule k sys).queue)) ∧
      (schedule k sys).queue.Nodup ∧
      (∀ j ∈ (schedule k sys).queue, j < (schedule k sys).nodes.length) := by
  rcases schedule_queue_cases k sys with ⟨hf, hq⟩ | ⟨hf, hq⟩
  · have hsysq : schedule k sys = sys := by
      unfold schedule
      simp only [flagOf] at hf
      simp [hf]
    rw [hsysq]
    exact ⟨hfq, hnd, hqb⟩
  · refine ⟨?_, ?_, ?_⟩
    · intro j hj
      rw [schedule_nodes_length] at hj
      rw [hq]
      by_cases he : j = k
      · subst he
        simp [schedule_flag_self j sys hk]
      · rw [schedule_flag_other k sys j he]
        rw [hfq j hj]
        simp [he]
    · rw [hq]
      refine List.Nodup.append hnd (List.nodup_singleton k) ?_
      intro b hb1 hb2
      simp only [List.mem_singleton] at hb2
      rw [hb2] at hb1
      have hmem := (hfq k hk).2 hb1
      rw [hf] at hmem
      exact Bool.false_ne_true hmem
    · intro j hj
      rw [schedule_nodes_length]
      rw [hq] at hj
      rcases List.mem_append.1 hj with h1 | h1
      · exact hqb j h1
      · simp at h1; subst h1; exact hk

theorem wfq_scheduleAll (l : List Nat) (sys : Sys V S)
    (hl : ∀ k ∈ l, k < sys.nodes.length)
    (hfq : ∀ j, j < sys.nodes.length → (flagOf sys j = true ↔ j ∈ sys.queue))
    (hnd : sys.queue.Nodup) (hqb : ∀ j ∈ sys.queue, j < sys.nodes.length) :
    (∀ j, j < (scheduleAll l sys).nodes.length →
        (flagOf (scheduleAll l sys) j = true ↔ j ∈ (scheduleAll l sys).queue)) ∧
      (scheduleAll l sys).queue.Nodup ∧
      (∀ j ∈ (scheduleAll l sys).queue, j < (scheduleAll l sys).nodes.length) := by
  induction l generalizing sys with
  | nil => exact ⟨hfq, hnd, hqb⟩
  | cons a rest ih =>
    simp only [scheduleAll, List.foldl_cons] at *
    have ha : a < sys.nodes.length := hl a (by simp)
    obtain ⟨h1, h2, h3⟩ := wfq_schedule a sys ha hfq hnd hqb
    refine ih _ ?_ h1 h2 h3
    intro k hk
    rw [schedule_nodes_length]
    exact hl k (List.mem_cons_of_mem _ hk)

end ScheduleLemmas

section SendLemmas

variable [DecidableEq V] [Inhabited V] [Inhabited S]

theorem send_eq_of_same {i : Nat} {v : V} {sys : Sys V S} (h : sigState sys i = v) :
    send i v sys = sys := by
  simp [send, h]

theorem send_of_ne {i : Nat} {v : V} {sys : Sys V S} (h : ¬ sigState sys i = v) :
    send i v sys = scheduleAll (getSig sys i).txn
      {sys with sigs := sys.sigs.set i {getSig sys i with state := v, txn := []}} := by
  simp [send, h]

theorem send_log (i : Nat) (v : V) (sys : Sys V S) : (send i v sys).log = sys.log := by
  by_cases h : sigState sys i = v
  · rw [send_eq_of_same h]
  · rw [send_of_ne h, scheduleAll_log]

theorem send_nodes_length (i : Nat) (v : V) (sys : Sys V S) :
    (send i v sys).nodes.length = sys.nodes.length := by
  by_cases h : sigState sys i = v
  · rw [send_eq_of_same h]
  · rw [send_of_ne h, scheduleAll_nodes_length]

theorem send_sigs_length (i : Nat) (v : V) (sys : Sys V S) :
    (send i v sys).sigs.length = sys.sigs.length := by
  by_cases h : sigState sys i = v
  · rw [send_eq_of_same h]
  · rw [send_of_ne h, scheduleAll_sigs]
    simp

theorem send_nodeState (i : Nat) (v : V) (sys : Sys V S) (j : Nat) :
    nodeState (send i v sys) j = nodeState sys j := by
  by_cases h : sigState sys i = v
  · rw [send_eq_of_same h]
  · rw [send_of_ne h, scheduleAll_nodeState]; rfl

theorem send_closure (i : Nat) (v : V) (sys : Sys V S) (j : Nat) :
    (getNode (send i v sys) j).closure = (getNode sys j).closure := by
  by_cases h : sigState sys i = v
  · rw [send_eq_of_same h]
  · rw [send_of_ne h, scheduleAll_closure]; rfl

theorem send_isComputed (i : Nat) (v : V) (sys : Sys V S) (j : Nat) :
    (getNode (send i v sys) j).isComputed = (getNode sys j).isComputed := by
  by_cases h : sigState sys i = v
  · rw [send_eq_of_same h]
  · rw [send_of_ne h, scheduleAll_isComputed]; rfl

theorem send_node_txn (i : Nat) (v : V) (sys : Sys V S) (j : Nat) :
    (getNode (send i v sys) j).txn = (getNode sys j).txn := by
  by_cases h : sigState sys i = v
  · rw [send_eq_of_same h]
  · rw [send_of_ne h, scheduleAll_node_txn]; rfl

theorem send_sigState_upd (i : Nat) (v : V) (sys : Sys V S) (hlt : i < sys.sigs.length) :
    sigState (send i v sys) i = v := by
  by_cases h : sigState sys i = v
  · rw [send_eq_of_same h]; exact h
  · rw [send_of_ne h]
    simp only [sigState, getSig]
    rw [scheduleAll_sigs]
    rw [getD_set_self _ _ _ _ hlt]

theorem send_sigState_other (i : Nat) (v : V) (sys : Sys V S) (i' : Nat) (h : i' ≠ i) :
    sigState (send i v sys) i' = sigState sys i' := by
  by_cases he : sigState sys i = v
  · rw [send_eq_of_same he]
  · rw [send_of_ne he]
    simp only [sigState, getSig]
    rw [scheduleAll_sigs]
    rw [getD_set_ne _ _ _ _ _ (fun hx => h hx.symm)]

theorem send_sig_txn_self (i : Nat) (v : V) (sys : Sys V S) (h : ¬ sigState sys i = v)
    (hlt : i < sys.sigs.length) : (getSig (send i v sys) i).txn = [] := by
  rw [send_of_ne h]
  simp only [getSig]
  rw [scheduleAll_sigs]
  rw [getD_set_self _ _ _ _ hlt]

theorem send_sig_txn_other (i : Nat) (v : V) (sys : Sys V S) (i' : Nat) (h : i' ≠ i) :
    (getSig (send i v sys) i').txn = (getSig sys i').txn := by
  by_cases he : sigState sys i = v
  · rw [send_eq_of_same he]
  · rw [send_of_ne he]
    simp only [getSig]
    rw [scheduleAll_sigs]
    rw [getD_set_ne _ _ _ _ _ (fun hx => h hx.symm)]

theorem send_sig_txn_sub (i : Nat) (v : V) (sys : Sys V S) (i' a : Nat)
    (h : a ∈ (getSig (send i v sys) i').txn) : a ∈ (getSig sys i').txn := by
  by_cases he : i' = i
  · subst he
    by_cases hv : sigState sys i' = v
    · rw [send_eq_of_same hv] at h; exact h
    · by_cases hlt : i' < sys.sigs.length
      · rw [send_sig_txn_self i' v sys hv hlt] at h
        simp at h
      · rw [send_of_ne hv] at h
        simp only [getSig] at h
        rw [scheduleAll_sigs] at h
        rw [getD_set_oob _ _ _ hlt] at h
        exact h
  · rw [send_sig_txn_other i v sys i' he] at h
    exact h

theorem send_flag_mono (i : Nat) (v : V) (sys : Sys V S) (j : Nat)
    (h : flagOf sys j = true) : flagOf (send i v sys) j = true := by
  by_cases he : sigState sys i = v
  · rw [send_eq_of_same he]; exact h
  · rw [send_of_ne he]
    exact scheduleAll_flag_mono _ _ j h

theorem send_flag_sub (i : Nat) (v : V) (sys : Sys V S) (j : Nat)
    (h : flagOf (send i v sys) j = true) :
    flagOf sys j = true ∨ j ∈ (getSig sys i).txn := by
  by_cases he : sigState sys i = v
  · rw [send_eq_of_same he] at h; exact Or.inl h
  · rw [send_of_ne he] at h
    have h2 := scheduleAll_flag_sub _ _ j h
    exact h2

theorem send_flag_notMem (i : Nat) (v : V) (sys : Sys V S) (j : Nat)
    (h : j ∉ (getSig sys i).txn) : flagOf (send i v sys) j = flagOf sys j := by
  by_cases he : sigState sys i = v
  · rw [send_eq_of_same he]
  · rw [send_of_ne he]
    exact scheduleAll_flag_notMem _ _ j h

theorem send_flag_mem (i : Nat) (v : V) (sys : Sys V S) (j : Nat)
    (hne : ¬ sigState sys i = v) (hmem : j ∈ (getSig sys i).txn)
    (hlt : j < sys.nodes.length) : flagOf (send i v sys) j = true := by
  rw [send_of_ne hne]
  exact scheduleAll_flag_mem _ _ j hmem hlt

theorem send_queue_count_other (i : Nat) (v : V) (sys : Sys V S) (e : Nat)
    (h : e ∉ (getSig sys i).txn) : (send i v sys).queue.count e = sys.queue.count e := by
  by_cases he : sigState sys i = v
  · rw [send_eq_of_same he]
  · rw [send_of_ne he]
    exact scheduleAll_queue_count_other _ _ e h

theorem send_queue_sub (i : Nat) (v : V) (sys : Sys V S) (a : Nat)
    (h : a ∈ (send i v sys).queue) : a ∈ sys.queue ∨ a ∈ (getSig sys i).txn := by
  by_cases he : sigState sys i = v
  · rw [send_eq_of_same he] at h; exact Or.inl h
  · rw [send_of_ne he] at h
    have h2 := scheduleAll_queue_sub _ _ a h
    exact h2

theorem send_queue_mono (i : Nat) (v : V) (sys : Sys V S) (a : Nat)
    (h : a ∈ sys.queue) : a ∈ (send i v sys).queue := by
  by_cases he : sigState sys i = v
  · rw [send_eq_of_same he]; exact h
  · rw [send_of_ne he]
    exact scheduleAll_queue_mono _ _ a h

theorem wf_send (i : Nat) (v : V) (sys : Sys V S) (hwf : Wf sys) : Wf (send i v sys) := by
  by_cases he : sigState sys i = v
  · rw [send_eq_of_same he]; exact hwf
  · rw [send_of_ne he]
    set sys1 : Sys V S :=
      {sys with sigs := sys.sigs.set i {getSig sys i with state := v, txn := []}} with hsys1
    have hnodes1 : sys1.nodes = sys.nodes := rfl
    have hqueue1 : sys1.queue = sys.queue := rfl
    have htxnb : ∀ k ∈ (getSig sys i).txn, k < sys1.nodes.length := by
      intro k hk
      rw [hnodes1]
      by_cases hlt : i < sys.sigs.length
      · exact hwf.sigTxnBound i hlt k hk
      · exfalso
        simp only [getSig] at hk
        rw [getD_oob _ _ _ hlt] at hk
        have hd : (default : Sig V).txn = ([] : List Nat) := rfl
        rw [hd] at hk
        cases hk
    have hflag1 : ∀ j, j < sys1.nodes.length → (flagOf sys1 j = true ↔ j ∈ sys1.queue) := by
      intro j hj
      rw [hnodes1] at hj
      rw [hqueue1]
      exact hwf.flagQueue j hj
    obtain ⟨h1, h2, h3⟩ := wfq_scheduleAll (getSig sys i).txn sys1 htxnb hflag1
      (by rw [hqueue1]; exact hwf.nodupQ) (by rw [hqueue1, hnodes1]; exact hwf.qBound)
    refine ⟨h1, h2, h3, ?_, ?_⟩
    · intro i' hlen a ha
      rw [scheduleAll_nodes_length, hnodes1]
      have hlen' : i' < sys.sigs.length := by
        have hx : (scheduleAll (getSig sys i).txn sys1).sigs = sys1.sigs := scheduleAll_sigs _ _
        rw [hx] at hlen
        simpa using hlen
      have ha' : a ∈ (getSig (send i v sys) i').txn := by
        rw [send_of_ne he]; exact ha
      have := send_sig_txn_sub i v sys i' a ha'
      exact hwf.sigTxnBound i' hlen' a this
    · intro m hlen a ha
      rw [scheduleAll_nodes_length, hnodes1]
      rw [scheduleAll_nodes_length, hnodes1] at hlen
      rw [scheduleAll_node_txn] at ha
      exact hwf.nodeTxnBound m hlen a ha

theorem send_notInNodeTxns (i : Nat) (v : V) (sys : Sys V S) (e : Nat)
    (h : notInNodeTxns e sys) : notInNodeTxns e (send i v sys) := by
  intro m hm
  rw [send_nodes_length] at hm
  rw [send_node_txn]
  exact h m hm

end SendLemmas

section StageLemmas

variable [DecidableEq V] [Inhabited V] [Inhabited S]

theorem setNode_sigs (j : Nat) (nd : Node V S) (sys : Sys V S) :
    (setNode j nd sys).sigs = sys.sigs := rfl

theorem setNode_queue (j : Nat) (nd : Node V S) (sys : Sys V S) :
    (setNode j nd sys).queue = sys.queue := rfl

theorem setNode_log (j : Nat) (nd : Node V S) (sys : Sys V S) :
    (setNode j nd sys).log = sys.log := rfl

theorem setNode_nodes_length (j : Nat) (nd : Node V S) (sys : Sys V S) :
    (setNode j nd sys).nodes.length = sys.nodes.length := by
  simp [setNode]

theorem setNode_getNode_self (j : Nat) (nd : Node V S) (sys : Sys V S)
    (hlt : j < sys.nodes.length) : getNode (setNode j nd sys) j = nd := by
  simp [getNode, setNode, getD_set_self _ _ _ _ hlt]

theorem setNode_getNode_other (j : Nat) (nd : Node V S) (sys : Sys V S) (j' : Nat)
    (h : j' ≠ j) : getNode (setNode j nd sys) j' = getNode sys j' := by
  simp only [getNode, setNode]
  rw [getD_set_ne _ _ _ _ _ (fun hx => h hx.symm)]

theorem setNode_oob (j : Nat) (nd : Node V S) (sys : Sys V S)
    (h : ¬ j < sys.nodes.length) : setNode j nd sys = sys := by
  simp [setNode, getD_set_oob _ _ _ h]

theorem logRun_sigs (j : Nat) (reads : List (Nat × V)) (sys : Sys V S) :
    (logRun j reads sys).sigs = sys.sigs := rfl

theorem logRun_nodes (j : Nat) (reads : List (Nat × V)) (sys : Sys V S) :
    (logRun j reads sys).nodes = sys.nodes := rfl

theorem logRun_queue (j : Nat) (reads : List (Nat × V)) (sys : Sys V S) :
    (logRun j reads sys).queue = sys.queue := rfl

theorem logRun_log (j : Nat) (reads : List (Nat × V)) (sys : Sys V S) :
    (logRun j reads sys).log = sys.log ++ [(j, reads)] := rfl

theorem setClosure_sigs (j : Nat) (s' : S) (sys : Sys V S) :
    (setClosure j s' sys).sigs = sys.sigs := rfl

theorem setClosure_queue (j : Nat) (s' : S) (sys : Sys V S) :
    (setClosure j s' sys).queue = sys.queue := rfl

theorem setClosure_log (j : Nat) (s' : S) (sys : Sys V S) :
    (setClosure j s' sys).log = sys.log := rfl

theorem setClosure_nodes_length (j : Nat) (s' : S) (sys : Sys V S) :
    (setClosure j s' sys).nodes.length = sys.nodes.length := by
  simp [setClosure, setNode_nodes_length]

theorem setClosure_getNode_other (j : Nat) (s' : S) (sys : Sys V S) (j' : Nat)
    (h : j' ≠ j) : getNode (setClosure j s' sys) j' = getNode sys j' := by
  simp [setClosure, setNode_getNode_other _ _ _ _ h]

theorem setClosure_nodeState (j : Nat) (s' : S) (sys : Sys V S) (j' : Nat) :
    nodeState (setClosure j s' sys) j' = nodeState sys j' := by
  by_cases h : j' = j
  · subst h
    by_cases hlt : j' < sys.nodes.length
    · simp [nodeState, setClosure, setNode_getNode_self _ _ _ hlt]
    · simp [setClosure, setNode_oob _ _ _ hlt]
  · simp [nodeState, setClosure_getNode_other _ _ _ _ h]

theorem setClosure_flag (j : Nat) (s' : S) (sys : Sys V S) (j' : Nat) :
    flagOf (setClosure j s' sys) j' = flagOf sys j' := by
  by_cases h : j' = j
  · subst h
    by_cases hlt : j' < sys.nodes.length
    · simp [flagOf, setClosure, setNode_getNode_self _ _ _ hlt]
    · simp [setClosure, setNode_oob _ _ _ hlt]
  · simp [flagOf, setClosure_getNode_other _ _ _ _ h]

theorem setClosure_isComputed (j : Nat) (s' : S) (sys : Sys V S) (j' : Nat) :
    (getNode (setClosure j s' sys) j').isComputed = (getNode sys j').isComputed := by
  by_cases h : j' = j
  · subst h
    by_cases hlt : j' < sys.nodes.length
    · simp [setClosure, setNode_getNode_self _ _ _ hlt]
    · simp [setClosure, setNode_oob _ _ _ hlt]
  · simp [setClosure_getNode_other _ _ _ _ h]

theorem setClosure_node_txn (j : Nat) (s' : S) (sys : Sys V S) (j' : Nat) :
    (getNode (setClosure j s' sys) j').txn = (getNode sys j').txn := by
  by_cases h : j' = j
  · subst h
    by_cases hlt : j' < sys.nodes.length
    · simp [setClosure, setNode_getNode_self _ _ _ hlt]
    · simp [setClosure, setNode_oob _ _ _ hlt]
  · simp [setClosure_getNode_other _ _ _ _ h]

theorem setClosure_closure_self (j : Nat) (s' : S) (sys : Sys V S)
    (hlt : j < sys.nodes.length) : (getNode (setClosure j s' sys) j).closure = s' := by
  simp [setClosure, setNode_getNode_self _ _ _ hlt]

theorem clearFlag_sigs (j : Nat) (sys : Sys V S) : (clearFlag j sys).sigs = sys.sigs := rfl

theorem clearFlag_queue (j : Nat) (sys : Sys V S) : (clearFlag j sys).queue = sys.queue := rfl

theorem clearFlag_log (j : Nat) (sys : Sys V S) : (clearFlag j sys).log = sys.log := rfl

theorem clearFlag_nodes_length (j : Nat) (sys : Sys V S) :
    (clearFlag j sys).nodes.length = sys.nodes.length := by
  simp [clearFlag, setNode_nodes_length]

theorem clearFlag_getNode_other (j : Nat) (sys : Sys V S) (j' : Nat) (h : j' ≠ j) :
    getNode (clearFlag j sys) j' = getNode sys j' := by
  simp [clearFlag, setNode_getNode_other _ _ _ _ h]

theorem clearFlag_nodeState (j : Nat) (sys : Sys V S) (j' : Nat) :
    nodeState (clearFlag j sys) j' = nodeState sys j' := by
  by_cases h : j' = j
  · subst h
    by_cases hlt : j' < sys.nodes.length
    · simp [nodeState, clearFlag, setNode_getNode_self _ _ _ hlt]
    · simp [clearFlag, setNode_oob _ _ _ hlt]
  · simp [nodeState, clearFlag_getNode_other _ _ _ h]

theorem clearFlag_closure (j : Nat) (sys : Sys V S) (j' : Nat) :
    (getNode (clearFlag j sys) j').closure = (getNode sys j').closure := by
  by_cases h : j' = j
  · subst h
    by_cases hlt : j' < sys.nodes.length
    · simp [clearFlag, setNode_getNode_self _ _ _ hlt]
    · simp [clearFlag, setNode_oob _ _ _ hlt]
  · simp [clearFlag_getNode_other _ _ _ h]

theorem clearFlag_isComputed (j : Nat) (sys : Sys V S) (j' : Nat) :
    (getNode (clearFlag j sys) j').isComputed = (getNode sys j').isComputed := by
  by_cases h : j' = j
  · subst h
    by_cases hlt : j' < sys.nodes.length
    · simp [clearFlag, setNode_getNode_self _ _ _ hlt]
    · simp [clearFlag, setNode_oob _ _ _ hlt]
  · simp [clearFlag_getNode_other _ _ _ h]

theorem clearFlag_node_txn (j : Nat) (sys : Sys V S) (j' : Nat) :
    (getNode (clearFlag j sys) j').txn = (getNode sys j').txn := by
  by_cases h : j' = j
  · subst h
    by_cases hlt : j' < sys.nodes.length
    · simp [clearFlag, setNode_getNode_self _ _ _ hlt]
    · simp [clearFlag, setNode_oob _ _ _ hlt]
  · simp [clearFlag_getNode_other _ _ _ h]

theorem clearFlag_flag_self (j : Nat) (sys : Sys V S) :
    flagOf (clearFlag j sys) j = false := by
  by_cases hlt : j < sys.nodes.length
  · simp [flagOf, clearFlag, setNode_getNode_self _ _ _ hlt]
  · simp only [clearFlag, setNode_oob _ _ _ hlt]
    simp only [flagOf, getNode]
    rw [getD_oob _ _ _ (by simpa using hlt)]
    rfl

theorem clearFlag_flag_other (j : Nat) (sys : Sys V S) (j' : Nat) (h : j' ≠ j) :
    flagOf (clearFlag j sys) j' = flagOf sys j' := by
  simp [flagOf, clearFlag_getNode_other _ _ _ h]

end StageLemmas

section CommitLemmas

variable [DecidableEq V] [Inhabited V] [Inhabited S]

theorem commit_eq_of_same {j : Nat} {v : V} {sys : Sys V S}
    (h : (getNode sys j).state = v) : commitComputed j v sys = sys := by
  simp [commitComputed, h]

theorem commit_of_ne {j : Nat} {v : V} {sys : Sys V S}
    (h : ¬ (getNode sys j).state = v) :
    commitComputed j v sys =
      scheduleAll (getNode sys j).txn
        (setNode j {getNode sys j with state := v, txn := []} sys) := by
  simp [commitComputed, h]

theorem commit_sigs (j : Nat) (v : V) (sys : Sys V S) :
    (commitComputed j v sys).sigs = sys.sigs := by
  by_cases h : (getNode sys j).state = v
  · rw [commit_eq_of_same h]
  · rw [commit_of_ne h, scheduleAll_sigs]; rfl

theorem commit_log (j : Nat) (v : V) (sys : Sys V S) :
    (commitComputed j v sys).log = sys.log := by
  by_cases h : (getNode sys j).state = v
  · rw [commit_eq_of_same h]
  · rw [commit_of_ne h, scheduleAll_log]; rfl

theorem commit_nodes_length (j : Nat) (v : V) (sys : Sys V S) :
    (commitComputed j v sys).nodes.length = sys.nodes.length := by
  by_cases h : (getNode sys j).state = v
  · rw [commit_eq_of_same h]
  · rw [commit_of_ne h, scheduleAll_nodes_length, setNode_nodes_length]

theorem commit_nodeState_other (j : Nat) (v : V) (sys : Sys V S) (j' : Nat) (h : j' ≠ j) :
    nodeState (commitComputed j v sys) j' = nodeState sys j' := by
  by_cases he : (getNode sys j).state = v
  · rw [commit_eq_of_same he]
  · rw [commit_of_ne he, scheduleAll_nodeState]
    simp [nodeState, setNode_getNode_other _ _ _ _ h]

theorem commit_nodeState_self (j : Nat) (v : V) (sys : Sys V S)
    (hlt : j < sys.nodes.length) : nodeState (commitComputed j v sys) j = v := by
  by_cases he : (getNode sys j).state = v
  · rw [commit_eq_of_same he]; exact he
  · rw [commit_of_ne he, scheduleAll_nodeState]
    simp [nodeState, setNode_getNode_self _ _ _ hlt]

theorem commit_closure (j : Nat) (v : V) (sys : Sys V S) (j' : Nat) :
    (getNode (commitComputed j v sys) j').closure = (getNode sys j').closure := by
  by_cases he : (getNode sys j).state = v
  · rw [commit_eq_of_same he]
  · rw [commit_of_ne he, scheduleAll_closure]
    by_cases h : j' = j
    · subst h
      by_cases hlt : j' < sys.nodes.length
      · simp [setNode_getNode_self _ _ _ hlt]
      · simp [setNode_oob _ _ _ hlt]
    · simp [setNode_getNode_other _ _ _ _ h]

theorem commit_isComputed (j : Nat) (v : V) (sys : Sys V S) (j' : Nat) :
    (getNode (commitComputed j v sys) j').isComputed = (getNode sys j').isComputed := by
  by_cases he : (getNode sys j).state = v
  · rw [commit_eq_of_same he]
  · rw [commit_of_ne he, scheduleAll_isComputed]
    by_cases h : j' = j
    · subst h
      by_cases hlt : j' < sys.nodes.length
      · simp [setNode_getNode_self _ _ _ hlt]
      · simp [setNode_oob _ _ _ hlt]
    · simp [setNode_getNode_other _ _ _ _ h]

theorem commit_sig_txn (j : Nat) (v : V) (sys : Sys V S) (i : Nat) :
    (getSig (commitComputed j v sys) i).txn = (getSig sys i).txn := by
  have h := commit_sigs j v sys
  simp only [getSig]
  rw [h]

theorem commit_sigState (j : Nat) (v : V) (sys : Sys V S) (i : Nat) :
    sigState (commitComputed j v sys) i = sigState sys i := by
  have h := commit_sigs j v sys
  simp only [sigState, getSig]
  rw [h]

theorem commit_node_txn_sub (j : Nat) (v : V) (sys : Sys V S) (m a : Nat)
    (h : a ∈ (getNode (commitComputed j v sys) m).txn) : a ∈ (getNode sys m).txn := by
  by_cases he : (getNode sys j).state = v
  · rw [commit_eq_of_same he] at h; exact h
  · rw [commit_of_ne he, scheduleAll_node_txn] at h
    by_cases hm : m = j
    · subst hm
      by_cases hlt : m < sys.nodes.length
      · rw [setNode_getNode_self _ _ _ hlt] at h
        cases h
      · rw [setNode_oob _ _ _ hlt] at h
        exact h
    · rw [setNode_getNode_other _ _ _ _ hm] at h
      exact h

theorem commit_node_txn_other (j : Nat) (v : V) (sys : Sys V S) (m : Nat) (hm : m ≠ j) :
    (getNode (commitComputed j v sys) m).txn = (getNode sys m).txn := by
  by_cases he : (getNode sys j).state = v
  · rw [commit_eq_of_same he]
  · rw [commit_of_ne he, scheduleAll_node_txn, setNode_getNode_other _ _ _ _ hm]

theorem commit_flag_mono (j : Nat) (v : V) (sys : Sys V S) (j' : Nat)
    (h : flagOf sys j' = true) : flagOf (commitComputed j v sys) j' = true := by
  by_cases he : (getNode sys j).state = v
  · rw [commit_eq_of_same he]; exact h
  · rw [commit_of_ne he]
    apply scheduleAll_flag_mono
    by_cases hm : j' = j
    · subst hm
      by_cases hlt : j' < sys.nodes.length
      · simp [flagOf, setNode_getNode_self _ _ _ hlt]
        simpa [flagOf] using h
      · rw [setNode_oob _ _ _ hlt]
        exact h
    · simp only [flagOf]
      rw [setNode_getNode_other _ _ _ _ hm]
      exact h

theorem commit_flag_sub (j : Nat) (v : V) (sys : Sys V S) (j' : Nat)
    (h : flagOf (commitComputed j v sys) j' = true) :
    flagOf sys j' = true ∨ j' ∈ (getNode sys j).txn := by
  by_cases he : (getNode sys j).state = v
  · rw [commit_eq_of_same he] at h; exact Or.inl h
  · rw [commit_of_ne he] at h
    rcases scheduleAll_flag_sub _ _ j' h with h1 | h1
    · left
      by_cases hm : j' = j
      · subst hm
        by_cases hlt : j' < sys.nodes.length
        · rw [flagOf] at h1
          rw [setNode_getNode_self _ _ _ hlt] at h1
          simpa [flagOf] using h1
        · rw [flagOf] at h1
          rw [setNode_oob _ _ _ hlt] at h1
          exact h1
      · rw [flagOf] at h1
        rw [setNode_getNode_other _ _ _ _ hm] at h1
        exact h1
    · exact Or.inr h1

theorem commit_flag_notMem (j : Nat) (v : V) (sys : Sys V S) (j' : Nat)
    (hj : j' ≠ j) (h : j' ∉ (getNode sys j).txn) :
    flagOf (commitComputed j v sys) j' = flagOf sys j' := by
  by_cases he : (getNode sys j).state = v
  · rw [commit_eq_of_same he]
  · rw [commit_of_ne he]
    rw [scheduleAll_flag_notMem _ _ _ h]
    simp only [flagOf]
    rw [setNode_getNode_other _ _ _ _ hj]

theorem commit_queue_count_other (j : Nat) (v : V) (sys : Sys V S) (e : Nat)
    (h : e ∉ (getNode sys j).txn) :
    (commitComputed j v sys).queue.count e = sys.queue.count e := by
  by_cases he : (getNode sys j).state = v
  · rw [commit_eq_of_same he]
  · rw [commit_of_ne he]
    rw [scheduleAll_queue_count_other _ _ _ h]
    rfl

theorem commit_queue_sub (j : Nat) (v : V) (sys : Sys V S) (a : Nat)
    (h : a ∈ (commitComputed j v sys).queue) :
    a ∈ sys.queue ∨ a ∈ (getNode sys j).txn := by
  by_cases he : (getNode sys j).state = v
  · rw [commit_eq_of_same he] at h; exact Or.inl h
  · rw [commit_of_ne he] at h
    have h2 := scheduleAll_queue_sub _ _ a h
    exact h2

theorem commit_queue_mono (j : Nat) (v : V) (sys : Sys V S) (a : Nat)
    (h : a ∈ sys.queue) : a ∈ (commitComputed j v sys).queue := by
  by_cases he : (getNode sys j).state = v
  · rw [commit_eq_of_same he]; exact h
  · rw [commit_of_ne he]
    exact scheduleAll_queue_mono _ _ a h

end CommitLemmas

section PerformLemmas

variable [DecidableEq V] [Inhabited V] [Inhabited S]

theorem perform_unfold (prog : Nat → S → Comp V (S × V)) (j : Nat) (sys : Sys V S) :
    perform prog j sys =
      clearFlag j
        (if (getNode sys j).isComputed then
          commitComputed j (track (some j) (prog j (getNode sys j).closure) sys).2.1.2
            (setClosure j (track (some j) (prog j (getNode sys j).closure) sys).2.1.1
              (logRun j (track (some j) (prog j (getNode sys j).closure) sys).2.2
                (track (some j) (prog j (getNode sys j).closure) sys).1))
        else
          setClosure j (track (some j) (prog j (getNode sys j).closure) sys).2.1.1
            (logRun j (track (some j) (prog j (getNode sys j).closure) sys).2.2
              (track (some j) (prog j (getNode sys j).closure) sys).1)) := rfl

theorem perform_sigs_length (prog : Nat → S → Comp V (S × V)) (j : Nat) (sys : Sys V S) :
    (perform prog j sys).sigs.length = sys.sigs.length := by
  rw [perform_unfold, clearFlag_sigs]
  split
  · rw [commit_sigs, setClosure_sigs, logRun_sigs, track_sigs_length]
  · rw [setClosure_sigs, logRun_sigs, track_sigs_length]

theorem perform_nodes_length (prog : Nat → S → Comp V (S × V)) (j : Nat) (sys : Sys V S) :
    (perform prog j sys).nodes.length = sys.nodes.length := by
  rw [perform_unfold, clearFlag_nodes_length]
  split
  · rw [commit_nodes_length, setClosure_nodes_length]
    show (logRun _ _ _).nodes.length = _
    rw [logRun_nodes, track_nodes_length]
  · rw [setClosure_nodes_length]
    show (logRun _ _ _).nodes.length = _
    rw [logRun_nodes, track_nodes_length]

theorem perform_sigState (prog : Nat → S → Comp V (S × V)) (j : Nat) (sys : Sys V S)
    (i : Nat) : sigState (perform prog j sys) i = sigState sys i := by
  rw [perform_unfold]
  show sigState (clearFlag _ _) i = _
  simp only [sigState, getSig, clearFlag_sigs]
  split
  · rw [commit_sigs, setClosure_sigs, logRun_sigs]
    have h := track_sigState (some j) (prog j (getNode sys j).closure) sys i
    simpa [sigState, getSig] using h
  · rw [setClosure_sigs, logRun_sigs]
    have h := track_sigState (some j) (prog j (getNode sys j).closure) sys i
    simpa [sigState, getSig] using h

theorem perform_sig_txn_mono (prog : Nat → S → Comp V (S × V)) (j : Nat) (sys : Sys V S)
    (i a : Nat) (h : a ∈ (getSig sys i).txn) :
    a ∈ (getSig (perform prog j sys) i).txn := by
  rw [perform_unfold]
  show a ∈ (getSig (clearFlag _ _) i).txn
  simp only [getSig, clearFlag_sigs]
  split
  · rw [commit_sigs, setClosure_sigs, logRun_sigs]
    have h2 := track_sig_txn_mono (some j) (prog j (getNode sys j).closure) sys i a h
    simpa [getSig] using h2
  · rw [setClosure_sigs, logRun_sigs]
    have h2 := track_sig_txn_mono (some j) (prog j (getNode sys j).closure) sys i a h
    simpa [getSig] using h2

theorem perform_sig_txn_sub (prog : Nat → S → Comp V (S × V)) (j : Nat) (sys : Sys V S)
    (i a : Nat) (h : a ∈ (getSig (perform prog j sys) i).txn) :
    a ∈ (getSig sys i).txn ∨ a = j := by
  rw [perform_unfold] at h
  replace h : a ∈ (getSig (clearFlag j _) i).txn := h
  simp only [getSig, clearFlag_sigs] at h
  have h2 : a ∈ (getSig (track (some j) (prog j (getNode sys j).closure) sys).1 i).txn := by
    split at h
    · rw [commit_sigs, setClosure_sigs, logRun_sigs] at h
      simpa [getSig] using h
    · rw [setClosure_sigs, logRun_sigs] at h
      simpa [getSig] using h
  rcases track_sig_txn_sub (some j) _ sys i a h2 with h3 | h3
  · exact Or.inl h3
  · right
    injection h3 with h4
    exact h4.symm

theorem perform_log (prog : Nat → S → Comp V (S × V)) (j : Nat) (sys : Sys V S) :
    (perform prog j sys).log = sys.log ++
      [(j, readsC (sigState sys) (nodeState sys) (prog j (getNode sys j).closure))] := by
  rw [perform_unfold, clearFlag_log]
  split
  · rw [commit_log, setClosure_log, logRun_log, track_log, track_reads]
  · rw [setClosure_log, logRun_log, track_log, track_reads]

theorem perform_nodeState_other (prog : Nat → S → Comp V (S × V)) (j : Nat)
    (sys : Sys V S) (j' : Nat) (h : j' ≠ j) :
    nodeState (perform prog j sys) j' = nodeState sys j' := by
  rw [perform_unfold, clearFlag_nodeState]
  split
  · rw [commit_nodeState_other _ _ _ _ h, setClosure_nodeState]
    show nodeState (logRun _ _ _) j' = _
    simp only [nodeState, getNode, logRun_nodes]
    have h2 := track_nodeState (some j) (prog j (getNode sys j).closure) sys j'
    simpa [nodeState, getNode] using h2
  · rw [setClosure_nodeState]
    show nodeState (logRun _ _ _) j' = _
    simp only [nodeState, getNode, logRun_nodes]
    have h2 := track_nodeState (some j) (prog j (getNode sys j).closure) sys j'
    simpa [nodeState, getNode] using h2

theorem perform_closure_other (prog : Nat → S → Comp V (S × V)) (j : Nat)
    (sys : Sys V S) (j' : Nat) (h : j' ≠ j) :
    (getNode (perform prog j sys) j').closure = (getNode sys j').closure := by
  rw [perform_unfold, clearFlag_closure]
  split
  · rw [commit_closure, setClosure_getNode_other _ _ _ _ h]
    show (getNode (logRun _ _ _) j').closure = _
    simp only [getNode, logRun_nodes]
    have h2 := track_closure (some j) (prog j (getNode sys j).closure) sys j'
    simpa [getNode] using h2
  · rw [setClosure_getNode_other _ _ _ _ h]
    show (getNode (logRun _ _ _) j').closure = _
    simp only [getNode, logRun_nodes]
    have h2 := track_closure (some j) (prog j (getNode sys j).closure) sys j'
    simpa [getNode] using h2

theorem perform_isComputed (prog : Nat → S → Comp V (S × V)) (j : Nat)
    (sys : Sys V S) (j' : Nat) :
    (getNode (perform prog j sys) j').isComputed = (getNode sys j').isComputed := by
  rw [perform_unfold, clearFlag_isComputed]
  split
  · rw [commit_isComputed, setClosure_isComputed]
    show (getNode (logRun _ _ _) j').isComputed = _
    simp only [getNode, logRun_nodes]
    have h2 := track_isComputed (some j) (prog j (getNode sys j).closure) sys j'
    simpa [getNode] using h2
  · rw [setClosure_isComputed]
    show (getNode (logRun _ _ _) j').isComputed = _
    simp only [getNode, logRun_nodes]
    have h2 := track_isComputed (some j) (prog j (getNode sys j).closure) sys j'
    simpa [getNode] using h2

theorem perform_flag_self (prog : Nat → S → Comp V (S × V)) (j : Nat) (sys : Sys V S) :
    flagOf (perform prog j sys) j = false := by
  rw [perform_unfold]
  exact clearFlag_flag_self j _

theorem perform_flag_other_mono (prog : Nat → S → Comp V (S × V)) (j : Nat)
    (sys : Sys V S) (j' : Nat) (h : j' ≠ j) (hf : flagOf sys j' = true) :
    flagOf (perform prog j sys) j' = true := by
  rw [perform_unfold, clearFlag_flag_other _ _ _ h]
  have hf2 : flagOf (setClosure j (track (some j) (prog j (getNode sys j).closure) sys).2.1.1
      (logRun j (track (some j) (prog j (getNode sys j).closure) sys).2.2
        (track (some j) (prog j (getNode sys j).closure) sys).1)) j' = true := by
    rw [setClosure_flag]
    show flagOf (logRun _ _ _) j' = true
    simp only [flagOf, getNode, logRun_nodes]
    have h2 := track_flagOf (some j) (prog j (getNode sys j).closure) sys j'
    simp only [flagOf, getNode] at h2
    rw [h2]
    simpa [flagOf, getNode] using hf
  split
  · exact commit_flag_mono _ _ _ _ hf2
  · exact hf2

theorem perform_flag_other_sub (prog : Nat → S → Comp V (S × V)) (j : Nat)
    (sys : Sys V S) (j' : Nat) (hj : j' ≠ j)
    (h : flagOf (perform prog j sys) j' = true) :
    flagOf sys j' = true ∨ j' ∈ (getNode sys j).txn := by
  rw [perform_unfold, clearFlag_flag_other _ _ _ hj] at h
  have hflag2 : ∀ s2b, flagOf (setClosure j s2b
      (logRun j (track (some j) (prog j (getNode sys j).closure) sys).2.2
        (track (some j) (prog j (getNode sys j).closure) sys).1)) j' = flagOf sys j' := by
    intro s2b
    rw [setClosure_flag]
    show flagOf (logRun _ _ _) j' = _
    simp only [flagOf, getNode, logRun_nodes]
    have h2 := track_flagOf (some j) (prog j (getNode sys j).closure) sys j'
    simpa [flagOf, getNode] using h2
  split at h
  · rcases commit_flag_sub _ _ _ _ h with h1 | h1
    · rw [hflag2] at h1
      exact Or.inl h1
    · rw [setClosure_node_txn] at h1
      replace h1 : j' ∈ (getNode (track (some j) (prog j (getNode sys j).closure) sys).1 j).txn := h1
      rcases track_node_txn_sub _ _ _ _ _ h1 with h2 | h2
      · exact Or.inr h2
      · exfalso
        injection h2 with h3
        exact hj h3.symm
  · rw [hflag2] at h
    exact Or.inl h

theorem perform_node_txn_sub (prog : Nat → S → Comp V (S × V)) (j : Nat)
    (sys : Sys V S) (m a : Nat) (h : a ∈ (getNode (perform prog j sys) m).txn) :
    a ∈ (getNode sys m).txn ∨ a = j := by
  rw [perform_unfold, clearFlag_node_txn] at h
  have step : a ∈ (getNode (setClosure j (track (some j) (prog j (getNode sys j).closure) sys).2.1.1
      (logRun j (track (some j) (prog j (getNode sys j).closure) sys).2.2
        (track (some j) (prog j (getNode sys j).closure) sys).1)) m).txn →
      a ∈ (getNode sys m).txn ∨ a = j := by
    intro h1
    rw [setClosure_node_txn] at h1
    replace h1 : a ∈ (getNode (track (some j) (prog j (getNode sys j).closure) sys).1 m).txn := h1
    rcases track_node_txn_sub _ _ _ _ _ h1 with h2 | h2
    · exact Or.inl h2
    · right; injection h2 with h3; exact h3.symm
  split at h
  · exact step (commit_node_txn_sub _ _ _ _ _ h)
  · exact step h

theorem perform_notInNodeTxns (prog : Nat → S → Comp V (S × V)) (j : Nat)
    (sys : Sys V S) (e : Nat)
    (he : e ≠ j ∨ SigOnly (prog j (getNode sys j).closure))
    (h : notInNodeTxns e sys) : notInNodeTxns e (perform prog j sys) := by
  intro m hm
  rw [perform_nodes_length] at hm
  intro hmem
  rcases he with he | he
  · rcases perform_node_txn_sub prog j sys m e hmem with h1 | h1
    · exact h m hm h1
    · exact he h1
  · rw [perform_unfold, clearFlag_node_txn] at hmem
    have step : e ∈ (getNode (setClosure j (track (some j) (prog j (getNode sys j).closure) sys).2.1.1
        (logRun j (track (some j) (prog j (getNode sys j).closure) sys).2.2
          (track (some j) (prog j (getNode sys j).closure) sys).1)) m).txn → False := by
      intro h1
      rw [setClosure_node_txn] at h1
      replace h1 : e ∈ (getNode (track (some j) (prog j (getNode sys j).closure) sys).1 m).txn := h1
      rw [track_node_txn_sigOnly _ _ _ he] at h1
      exact h m hm h1
    split at hmem
    · exact step (commit_node_txn_sub _ _ _ _ _ hmem)
    · exact step hmem

theorem perform_queue_sub (prog : Nat → S → Comp V (S × V)) (j : Nat) (sys : Sys V S)
    (a : Nat) (h : a ∈ (perform prog j sys).queue) :
    a ∈ sys.queue ∨ a ∈ (getNode sys j).txn ∨ a = j := by
  rw [perform_unfold, clearFlag_queue] at h
  split at h
  · rcases commit_queue_sub _ _ _ _ h with h1 | h1
    · rw [setClosure_queue] at h1
      replace h1 : a ∈ (logRun j _ _).queue := h1
      rw [logRun_queue, track_queue] at h1
      exact Or.inl h1
    · rw [setClosure_node_txn] at h1
      replace h1 : a ∈ (getNode (track (some j) (prog j (getNode sys j).closure) sys).1 j).txn := h1
      rcases track_node_txn_sub _ _ _ _ _ h1 with h2 | h2
      · exact Or.inr (Or.inl h2)
      · right; right; injection h2 with h3; exact h3.symm
  · rw [setClosure_queue] at h
    replace h : a ∈ (logRun j _ _).queue := h
    rw [logRun_queue, track_queue] at h
    exact Or.inl h

theorem perform_queue_count_other (prog : Nat → S → Comp V (S × V)) (j : Nat)
    (sys : Sys V S) (e : Nat) (he1 : e ∉ (getNode sys j).txn) (he2 : e ≠ j) :
    (perform prog j sys).queue.count e = sys.queue.count e := by
  rw [perform_unfold, clearFlag_queue]
  have hq2 : (setClosure j (track (some j) (prog j (getNode sys j).closure) sys).2.1.1
      (logRun j (track (some j) (prog j (getNode sys j).closure) sys).2.2
        (track (some j) (prog j (getNode sys j).closure) sys).1)).queue = sys.queue := by
    rw [setClosure_queue]
    show (logRun j _ _).queue = _
    rw [logRun_queue, track_queue]
  split
  · rw [commit_queue_count_other, hq2]
    intro hmem
    rw [setClosure_node_txn] at hmem
    replace hmem : e ∈ (getNode (track (some j) (prog j (getNode sys j).closure) sys).1 j).txn := hmem
    rcases track_node_txn_sub _ _ _ _ _ hmem with h2 | h2
    · exact he1 h2
    · injection h2 with h3; exact he2 h3.symm
  · rw [hq2]

theorem perform_queue_count_self_sigOnly (prog : Nat → S → Comp V (S × V)) (j : Nat)
    (sys : Sys V S) (hso : SigOnly (prog j (getNode sys j).closure))
    (hne : j ∉ (getNode sys j).txn) :
    (perform prog j sys).queue.count j = sys.queue.count j := by
  rw [perform_unfold, clearFlag_queue]
  have hq2 : (setClosure j (track (some j) (prog j (getNode sys j).closure) sys).2.1.1
      (logRun j (track (some j) (prog j (getNode sys j).closure) sys).2.2
        (track (some j) (prog j (getNode sys j).closure) sys).1)).queue = sys.queue := by
    rw [setClosure_queue]
    show (logRun j _ _).queue = _
    rw [logRun_queue, track_queue]
  split
  · rw [commit_queue_count_other, hq2]
    intro hmem
    rw [setClosure_node_txn] at hmem
    replace hmem : j ∈ (getNode (track (some j) (prog j (getNode sys j).closure) sys).1 j).txn := hmem
    rw [track_node_txn_sigOnly _ _ _ hso] at hmem
    exact hne hmem
  · rw [hq2]

end PerformLemmas

section WfDrain

variable [DecidableEq V] [Inhabited V] [Inhabited S]

theorem schedule_eq_of_flag {k : Nat} {sys : Sys V S} (h : flagOf sys k = true) :
    schedule k sys = sys := by
  unfold schedule
  simp only [flagOf] at h
  simp [h]

theorem wfq_schedule_except (ex k : Nat) (sys : Sys V S)
    (hex : flagOf sys ex = true) (hexq : ex ∉ sys.queue)
    (hfq : ∀ m, m < sys.nodes.length → m ≠ ex → (flagOf sys m = true ↔ m ∈ sys.queue))
    (hnd : sys.queue.Nodup) (hqb : ∀ m ∈ sys.queue, m < sys.nodes.length)
    (hk : k < sys.nodes.length) :
    flagOf (schedule k sys) ex = true ∧ ex ∉ (schedule k sys).queue ∧
      (∀ m, m < (schedule k sys).nodes.length → m ≠ ex →
        (flagOf (schedule k sys) m = true ↔ m ∈ (schedule k sys).queue)) ∧
      (schedule k sys).queue.Nodup ∧
      (∀ m ∈ (schedule k sys).queue, m < (schedule k sys).nodes.length) := by
  rcases schedule_queue_cases k sys with ⟨hf, _⟩ | ⟨hf, hq⟩
  · rw [schedule_eq_of_flag hf]
    exact ⟨hex, hexq, hfq, hnd, hqb⟩
  · have hkex : k ≠ ex := by
      intro he
      rw [he, hex] at hf
      cases hf
    refine ⟨?_, ?_, ?_, ?_, ?_⟩
    · rw [schedule_flag_other k sys ex (fun he => hkex he.symm)]
      exact hex
    · rw [hq]
      intro hmem
      rcases List.mem_append.1 hmem with h1 | h1
      · exact hexq h1
      · simp at h1
        exact hkex h1.symm
    · intro m hm hmex
      rw [schedule_nodes_length] at hm
      rw [hq]
      by_cases hmk : m = k
      · subst hmk
        simp [schedule_flag_self m sys hk]
      · rw [schedule_flag_other k sys m hmk]
        rw [hfq m hm hmex]
        simp [hmk]
    · rw [hq]
      refine List.Nodup.append hnd (List.nodup_singleton k) ?_
      intro b hb1 hb2
      simp only [List.mem_singleton] at hb2
      rw [hb2] at hb1
      have := (hfq k hk hkex).2 hb1
      rw [hf] at this
      cases this
    · intro m hm
      rw [schedule_nodes_length]
      rw [hq] at hm
      rcases List.mem_append.1 hm with h1 | h1
      · exact hqb m h1
      · simp at h1; subst h1; exact hk

theorem wfq_scheduleAll_except (ex : Nat) (l : List Nat) (sys : Sys V S)
    (hl : ∀ k ∈ l, k < sys.nodes.length)
    (hex : flagOf sys ex = true) (hexq : ex ∉ sys.queue)
    (hfq : ∀ m, m < sys.nodes.length → m ≠ ex → (flagOf sys m = true ↔ m ∈ sys.queue))
    (hnd : sys.queue.Nodup) (hqb : ∀ m ∈ sys.queue, m < sys.nodes.length) :
    flagOf (scheduleAll l sys) ex = true ∧ ex ∉ (scheduleAll l sys).queue ∧
      (∀ m, m < (scheduleAll l sys).nodes.length → m ≠ ex →
        (flagOf (scheduleAll l sys) m = true ↔ m ∈ (scheduleAll l sys).queue)) ∧
      (scheduleAll l sys).queue.Nodup ∧
      (∀ m ∈ (scheduleAll l sys).queue, m < (scheduleAll l sys).nodes.length) := by
  induction l generalizing sys with
  | nil => exact ⟨hex, hexq, hfq, hnd, hqb⟩
  | cons a rest ih =>
    simp only [scheduleAll, List.foldl_cons] at *
    have ha : a < sys.nodes.length := hl a (by simp)
    obtain ⟨h1, h2, h3, h4, h5⟩ := wfq_schedule_except ex a sys hex hexq hfq hnd hqb ha
    refine ih _ ?_ h1 h2 h3 h4 h5
    intro k hk
    rw [schedule_nodes_length]
    exact hl k (List.mem_cons_of_mem _ hk)

theorem wfq_commit_except (j : Nat) (v : V) (sys : Sys V S)
    (hfj : flagOf sys j = true) (hjq : j ∉ sys.queue)
    (hfq : ∀ m, m < sys.nodes.length → m ≠ j → (flagOf sys m = true ↔ m ∈ sys.queue))
    (hnd : sys.queue.Nodup) (hqb : ∀ m ∈ sys.queue, m < sys.nodes.length)
    (hntb : ∀ a ∈ (getNode sys j).txn, a < sys.nodes.length) :
    flagOf (commitComputed j v sys) j = true ∧ j ∉ (commitComputed j v sys).queue ∧
      (∀ m, m < (commitComputed j v sys).nodes.length → m ≠ j →
        (flagOf (commitComputed j v sys) m = true ↔ m ∈ (commitComputed j v sys).queue)) ∧
      (commitComputed j v sys).queue.Nodup ∧
      (∀ m ∈ (commitComputed j v sys).queue, m < (commitComputed j v sys).nodes.length) := by
  by_cases he : (getNode sys j).state = v
  · rw [commit_eq_of_same he]
    exact ⟨hfj, hjq, hfq, hnd, hqb⟩
  · rw [commit_of_ne he]
    set sys' := setNode j {getNode sys j with state := v, txn := []} sys with hsys'
    have hflag' : ∀ m, flagOf sys' m = flagOf sys m := by
      intro m
      by_cases hm : m = j
      · subst hm
        by_cases hlt : m < sys.nodes.length
        · simp [flagOf, hsys', setNode_getNode_self _ _ _ hlt]
        · simp [hsys', setNode_oob _ _ _ hlt]
      · simp [flagOf, hsys', setNode_getNode_other _ _ _ _ hm]
    have hq' : sys'.queue = sys.queue := rfl
    have hlen' : sys'.nodes.length = sys.nodes.length := by
      simp [hsys', setNode_nodes_length]
    apply wfq_scheduleAll_except j (getNode sys j).txn sys'
    · intro k hk
      rw [hlen']
      exact hntb k hk
    · rw [hflag']; exact hfj
    · rw [hq']; exact hjq
    · intro m hm hmj
      rw [hlen'] at hm
      rw [hflag', hq']
      exact hfq m hm hmj
    · rw [hq']; exact hnd
    · intro m hm
      rw [hq'] at hm
      rw [hlen']
      exact hqb m hm

theorem wfq_perform (prog : Nat → S → Comp V (S × V)) (j : Nat) (sys : Sys V S)
    (hjlen : j < sys.nodes.length)
    (hfj : flagOf sys j = true) (hjq : j ∉ sys.queue)
    (hfq : ∀ m, m < sys.nodes.length → m ≠ j → (flagOf sys m = true ↔ m ∈ sys.queue))
    (hnd : sys.queue.Nodup) (hqb : ∀ m ∈ sys.queue, m < sys.nodes.length)
    (hntb : ∀ a ∈ (getNode sys j).txn, a < sys.nodes.length) :
    (∀ m, m < (perform prog j sys).nodes.length →
        (flagOf (perform prog j sys) m = true ↔ m ∈ (perform prog j sys).queue)) ∧
      (perform prog j sys).queue.Nodup ∧
      (∀ m ∈ (perform prog j sys).queue, m < (perform prog j sys).nodes.length) := by
  rw [perform_unfold]
  set R := track (some j) (prog j (getNode sys j).closure) sys with hR
  set s2 := setClosure j R.2.1.1 (logRun j R.2.2 R.1) with hs2
  have hflag2 : ∀ m, flagOf s2 m = flagOf sys m := by
    intro m
    rw [hs2, setClosure_flag]
    show flagOf (logRun _ _ _) m = _
    simp only [flagOf, getNode, logRun_nodes]
    have h2 := track_flagOf (some j) (prog j (getNode sys j).closure) sys m
    simpa [flagOf, getNode] using h2
  have hq2 : s2.queue = sys.queue := by
    rw [hs2, setClosure_queue]
    show (logRun _ _ _).queue = _
    rw [logRun_queue, track_queue]
  have hlen2 : s2.nodes.length = sys.nodes.length := by
    rw [hs2, setClosure_nodes_length]
    show (logRun _ _ _).nodes.length = _
    rw [logRun_nodes, track_nodes_length]
  have htxn2 : ∀ a ∈ (getNode s2 j).txn, a < sys.nodes.length := by
    intro a ha
    rw [hs2, setClosure_node_txn] at ha
    replace ha : a ∈ (getNode R.1 j).txn := ha
    rcases track_node_txn_sub _ _ _ _ _ ha with h1 | h1
    · exact hntb a h1
    · injection h1 with h2; subst h2; exact hjlen
  have except3 : flagOf (if (getNode sys j).isComputed then commitComputed j R.2.1.2 s2 else s2) j = true ∧
      j ∉ (if (getNode sys j).isComputed then commitComputed j R.2.1.2 s2 else s2).queue ∧
      (∀ m, m < (if (getNode sys j).isComputed then commitComputed j R.2.1.2 s2 else s2).nodes.length → m ≠ j →
        (flagOf (if (getNode sys j).isComputed then commitComputed j R.2.1.2 s2 else s2) m = true ↔
          m ∈ (if (getNode sys j).isComputed then commitComputed j R.2.1.2 s2 else s2).queue)) ∧
      (if (getNode sys j).isComputed then commitComputed j R.2.1.2 s2 else s2).queue.Nodup ∧
      (∀ m ∈ (if (getNode sys j).isComputed then commitComputed j R.2.1.2 s2 else s2).queue,
        m < (if (getNode sys j).isComputed then commitComputed j R.2.1.2 s2 else s2).nodes.length) := by
    split
    · apply wfq_commit_except j R.2.1.2 s2
      · rw [hflag2]; exact hfj
      · rw [hq2]; exact hjq
      · intro m hm hmj
        rw [hlen2] at hm
        rw [hflag2, hq2]
        exact hfq m hm hmj
      · rw [hq2]; exact hnd
      · intro m hm
        rw [hq2] at hm
        rw [hlen2]
        exact hqb m hm
      · intro a ha
        rw [hlen2]
        exact htxn2 a ha
    · refine ⟨?_, ?_, ?_, ?_, ?_⟩
      · rw [hflag2]; exact hfj
      · rw [hq2]; exact hjq
      · intro m hm hmj
        rw [hlen2] at hm
        rw [hflag2, hq2]
        exact hfq m hm hmj
      · rw [hq2]; exact hnd
      · intro m hm
        rw [hq2] at hm
        rw [hlen2]
        exact hqb m hm
  obtain ⟨e1, e2, e3, e4, e5⟩ := except3
  refine ⟨?_, ?_, ?_⟩
  · intro m hm
    rw [clearFlag_nodes_length] at hm
    rw [clearFlag_queue]
    by_cases hmj : m = j
    · subst hmj
      rw [clearFlag_flag_self]
      constructor
      · intro hx; cases hx
      · intro hx; exact absurd hx e2
    · rw [clearFlag_flag_other _ _ _ hmj]
      exact e3 m hm hmj
  · rw [clearFlag_queue]
    exact e4
  · intro m hm
    rw [clearFlag_queue] at hm
    rw [clearFlag_nodes_length]
    exact e5 m hm

theorem wf_drainStep (prog : Nat → S → Comp V (S × V)) (sys : Sys V S) (hwf : Wf sys) :
    Wf (drainStep prog sys) := by
  rcases hq : sys.queue with _ | ⟨j, rest⟩
  · unfold drainStep
    rw [hq]
    exact hwf
  · unfold drainStep
    rw [hq]
    set sys' : Sys V S := {sys with queue := rest} with hsys'
    have hjlen : j < sys.nodes.length := hwf.qBound j (by rw [hq]; simp)
    have hfj : flagOf sys' j = true := by
      show flagOf sys j = true
      exact (hwf.flagQueue j hjlen).2 (by rw [hq]; simp)
    have hndfull := hwf.nodupQ
    rw [hq] at hndfull
    have hjq : j ∉ rest := by
      have := List.nodup_cons.1 hndfull
      exact this.1
    have hnd : rest.Nodup := (List.nodup_cons.1 hndfull).2
    have hfq : ∀ m, m < sys'.nodes.length → m ≠ j →
        (flagOf sys' m = true ↔ m ∈ sys'.queue) := by
      intro m hm hmj
      show flagOf sys m = true ↔ m ∈ rest
      rw [hwf.flagQueue m hm, hq]
      simp [hmj]
    have hqb : ∀ m ∈ sys'.queue, m < sys'.nodes.length := by
      intro m hm
      exact hwf.qBound m (by rw [hq]; exact List.mem_cons_of_mem _ hm)
    have hntb : ∀ a ∈ (getNode sys' j).txn, a < sys'.nodes.length := by
      intro a ha
      exact hwf.nodeTxnBound j hjlen a ha
    obtain ⟨w1, w2, w3⟩ := wfq_perform prog j sys' hjlen hfj hjq hfq hnd hqb hntb
    refine ⟨w1, w2, w3, ?_, ?_⟩
    · intro i hi a ha
      rw [perform_nodes_length]
      have hi' : i < sys.sigs.length := by
        rw [perform_sigs_length] at hi
        exact hi
      rcases perform_sig_txn_sub prog j sys' i a ha with h1 | h1
      · exact hwf.sigTxnBound i hi' a h1
      · subst h1; exact hjlen
    · intro m hm a ha
      rw [perform_nodes_length]
      have hm' : m < sys.nodes.length := by
        rw [perform_nodes_length] at hm
        exact hm
      rcases perform_node_txn_sub prog j sys' m a ha with h1 | h1
      · exact hwf.nodeTxnBound m hm' a h1
      · subst h1; exact hjlen

end WfDrain

section DrainFrame

variable [DecidableEq V] [Inhabited V] [Inhabited S]

theorem countRuns_append (e : Nat) (l1 l2 : List (Nat × List (Nat × V))) :
    countRuns e (l1 ++ l2) = countRuns e l1 + countRuns e l2 := by
  simp [countRuns, List.filter_append]

theorem drainStep_sigState (prog : Nat → S → Comp V (S × V)) (sys : Sys V S) (i : Nat) :
    sigState (drainStep prog sys) i = sigState sys i := by
  rcases hq : sys.queue with _ | ⟨j, rest⟩
  · unfold drainStep; rw [hq]
  · unfold drainStep; rw [hq]
    exact perform_sigState prog j {sys with queue := rest} i

theorem drainStep_sigs_length (prog : Nat → S → Comp V (S × V)) (sys : Sys V S) :
    (drainStep prog sys).sigs.length = sys.sigs.length := by
  rcases hq : sys.queue with _ | ⟨j, rest⟩
  · unfold drainStep; rw [hq]
  · unfold drainStep; rw [hq]
    exact perform_sigs_length prog j {sys with queue := rest}

theorem drainStep_nodes_length (prog : Nat → S → Comp V (S × V)) (sys : Sys V S) :
    (drainStep prog sys).nodes.length = sys.nodes.length := by
  rcases hq : sys.queue with _ | ⟨j, rest⟩
  · unfold drainStep; rw [hq]
  · unfold drainStep; rw [hq]
    exact perform_nodes_length prog j {sys with queue := rest}

theorem drainStep_log_extend (prog : Nat → S → Comp V (S × V)) (sys : Sys V S) :
    ∃ tail, (drainStep prog sys).log = sys.log ++ tail ∧
      ∀ entry ∈ tail, ∀ p ∈ entry.2, p.2 = sigState sys p.1 := by
  rcases hq : sys.queue with _ | ⟨j, rest⟩
  · refine ⟨[], by unfold drainStep; rw [hq]; simp, by intro entry he; cases he⟩
  · unfold drainStep
    rw [hq]
    set sys' : Sys V S := {sys with queue := rest} with hsys'
    refine ⟨[(j, readsC (sigState sys') (nodeState sys') (prog j (getNode sys' j).closure))],
      ?_, ?_⟩
    · exact perform_log prog j sys'
    · intro entry he
      simp only [List.mem_singleton] at he
      subst he
      intro p hp
      have := readsC_val _ p hp
      exact this

theorem drainStep_notInNodeTxns (prog : Nat → S → Comp V (S × V)) (sys : Sys V S)
    (e : Nat) (hsig : ∀ s, SigOnly (prog e s)) (h : notInNodeTxns e sys) :
    notInNodeTxns e (drainStep prog sys) := by
  rcases hq : sys.queue with _ | ⟨j, rest⟩
  · unfold drainStep; rw [hq]; exact h
  · unfold drainStep; rw [hq]
    apply perform_notInNodeTxns
    · by_cases he : e = j
      · subst he
        exact Or.inr (hsig _)
      · exact Or.inl he
    · exact h

theorem eCount_drainStep (prog : Nat → S → Comp V (S × V)) (sys : Sys V S) (e : Nat)
    (hwf : Wf sys) (hnt : notInNodeTxns e sys) (hsig : ∀ s, SigOnly (prog e s)) :
    eCount e (drainStep prog sys) = eCount e sys := by
  rcases hq : sys.queue with _ | ⟨j, rest⟩
  · unfold drainStep; rw [hq]
  · unfold drainStep
    rw [hq]
    set sys' : Sys V S := {sys with queue := rest} with hsys'
    have hjlen : j < sys.nodes.length := hwf.qBound j (by rw [hq]; simp)
    have hlog : countRuns e (perform prog j sys').log =
        countRuns e sys.log + (if j = e then 1 else 0) := by
      rw [perform_log, countRuns_append]
      congr 1
      simp only [countRuns, List.filter]
      by_cases hje : j = e
      · simp [hje]
      · simp [hje]
    by_cases hje : j = e
    · subst hje
      have hcount : (perform prog j sys').queue.count j = sys'.queue.count j := by
        apply perform_queue_count_self_sigOnly
        · exact hsig _
        · exact hnt j hjlen
      have hrest : (rest : List Nat).count j = 0 := by
        rw [List.count_eq_zero]
        have hndfull := hwf.nodupQ
        rw [hq] at hndfull
        exact (List.nodup_cons.1 hndfull).1
      simp only [eCount, hlog, hcount]
      show _ + (rest.count j) = countRuns j sys.log + (sys.queue.count j)
      rw [hq]
      simp [List.count_cons, hrest]
    · have hcount : (perform prog j sys').queue.count e = sys'.queue.count e := by
        apply perform_queue_count_other
        · exact hnt j hjlen
        · exact fun he => hje he.symm
      simp only [eCount, hlog, hcount]
      show _ + (rest.count e) = countRuns e sys.log + (sys.queue.count e)
      rw [hq]
      simp [List.count_cons, hje, fun h : e = j => hje h.symm]

theorem flushN_sigState (prog : Nat → S → Comp V (S × V)) (n : Nat) (sys : Sys V S)
    (i : Nat) : sigState (flushN prog n sys) i = sigState sys i := by
  induction n generalizing sys with
  | zero => rfl
  | succ n ih =>
    show sigState (flushN prog n (drainStep prog sys)) i = _
    rw [ih, drainStep_sigState]

theorem flushN_sigs_length (prog : Nat → S → Comp V (S × V)) (n : Nat) (sys : Sys V S) :
    (flushN prog n sys).sigs.length = sys.sigs.length := by
  induction n generalizing sys with
  | zero => rfl
  | succ n ih =>
    show (flushN prog n (drainStep prog sys)).sigs.length = _
    rw [ih, drainStep_sigs_length]

theorem flushN_nodes_length (prog : Nat → S → Comp V (S × V)) (n : Nat) (sys : Sys V S) :
    (flushN prog n sys).nodes.length = sys.nodes.length := by
  induction n generalizing sys with
  | zero => rfl
  | succ n ih =>
    show (flushN prog n (drainStep prog sys)).nodes.length = _
    rw [ih, drainStep_nodes_length]

theorem wf_flushN (prog : Nat → S → Comp V (S × V)) (n : Nat) (sys : Sys V S)
    (hwf : Wf sys) : Wf (flushN prog n sys) := by
  induction n generalizing sys with
  | zero => exact hwf
  | succ n ih =>
    show Wf (flushN prog n (drainStep prog sys))
    exact ih _ (wf_drainStep prog sys hwf)

theorem flushN_notInNodeTxns (prog : Nat → S → Comp V (S × V)) (n : Nat) (sys : Sys V S)
    (e : Nat) (hsig : ∀ s, SigOnly (prog e s)) (h : notInNodeTxns e sys) :
    notInNodeTxns e (flushN prog n sys) := by
  induction n generalizing sys with
  | zero => exact h
  | succ n ih =>
    show notInNodeTxns e (flushN prog n (drainStep prog sys))
    exact ih _ (drainStep_notInNodeTxns prog sys e hsig h)

theorem eCount_flushN (prog : Nat → S → Comp V (S × V)) (n : Nat) (sys : Sys V S)
    (e : Nat) (hwf : Wf sys) (hnt : notInNodeTxns e sys) (hsig : ∀ s, SigOnly (prog e s)) :
    eCount e (flushN prog n sys) = eCount e sys := by
  induction n generalizing sys with
  | zero => rfl
  | succ n ih =>
    show eCount e (flushN prog n (drainStep prog sys)) = _
    rw [ih _ (wf_drainStep prog sys hwf) (drainStep_notInNodeTxns prog sys e hsig hnt)]
    exact eCount_drainStep prog sys e hwf hnt hsig

theorem flushN_log_extend (prog : Nat → S → Comp V (S × V)) (n : Nat) (sys : Sys V S) :
    ∃ tail, (flushN prog n sys).log = sys.log ++ tail ∧
      ∀ entry ∈ tail, ∀ p ∈ entry.2, p.2 = sigState sys p.1 := by
  induction n generalizing sys with
  | zero => exact ⟨[], by simp [flushN], by intro entry he; cases he⟩
  | succ n ih =>
    obtain ⟨t1, h1, h2⟩ := drainStep_log_extend prog sys
    obtain ⟨t2, h3, h4⟩ := ih (drainStep prog sys)
    refine ⟨t1 ++ t2, ?_, ?_⟩
    · show (flushN prog n (drainStep prog sys)).log = _
      rw [h3, h1, List.append_assoc]
    · intro entry he
      rcases List.mem_append.1 he with hm | hm
      · exact h2 entry hm
      · intro p hp
        have := h4 entry hm p hp
        rw [this, drainStep_sigState]

end DrainFrame

section WritesLemmas

variable [DecidableEq V] [Inhabited V] [Inhabited S]

theorem applyWrites_log (ws : List (Nat × V)) (sys : Sys V S) :
    (applyWrites ws sys).log = sys.log := by
  induction ws generalizing sys with
  | nil => rfl
  | cons p rest ih =>
    show (applyWrites rest (send p.1 p.2 sys)).log = _
    rw [ih, send_log]

theorem applyWrites_sigs_length (ws : List (Nat × V)) (sys : Sys V S) :
    (applyWrites ws sys).sigs.length = sys.sigs.length := by
  induction ws generalizing sys with
  | nil => rfl
  | cons p rest ih =>
    show (applyWrites rest (send p.1 p.2 sys)).sigs.length = _
    rw [ih, send_sigs_length]

theorem applyWrites_nodes_length (ws : List (Nat × V)) (sys : Sys V S) :
    (applyWrites ws sys).nodes.length = sys.nodes.length := by
  induction ws generalizing sys with
  | nil => rfl
  | cons p rest ih =>
    show (applyWrites rest (send p.1 p.2 sys)).nodes.length = _
    rw [ih, send_nodes_length]

theorem applyWrites_nodeState (ws : List (Nat × V)) (sys : Sys V S) (j : Nat) :
    nodeState (applyWrites ws sys) j = nodeState sys j := by
  induction ws generalizing sys with
  | nil => rfl
  | cons p rest ih =>
    show nodeState (applyWrites rest (send p.1 p.2 sys)) j = _
    rw [ih, send_nodeState]

theorem applyWrites_closure (ws : List (Nat × V)) (sys : Sys V S) (j : Nat) :
    (getNode (applyWrites ws sys) j).closure = (getNode sys j).closure := by
  induction ws generalizing sys with
  | nil => rfl
  | cons p rest ih =>
    show (getNode (applyWrites rest (send p.1 p.2 sys)) j).closure = _
    rw [ih, send_closure]

theorem applyWrites_wf (ws : List (Nat × V)) (sys : Sys V S) (hwf : Wf sys) :
    Wf (applyWrites ws sys) := by
  induction ws generalizing sys with
  | nil => exact hwf
  | cons p rest ih =>
    show Wf (applyWrites rest (send p.1 p.2 sys))
    exact ih _ (wf_send p.1 p.2 sys hwf)

theorem applyWrites_notInNodeTxns (ws : List (Nat × V)) (sys : Sys V S) (e : Nat)
    (h : notInNodeTxns e sys) : notInNodeTxns e (applyWrites ws sys) := by
  induction ws generalizing sys with
  | nil => exact h
  | cons p rest ih =>
    show notInNodeTxns e (applyWrites rest (send p.1 p.2 sys))
    exact ih _ (send_notInNodeTxns p.1 p.2 sys e h)

theorem applyWrites_sigState_last (ws : List (Nat × V)) (sys : Sys V S) (s0 : Nat)
    (hbnd : ∀ p ∈ ws, p.1 < sys.sigs.length) :
    sigState (applyWrites ws sys) s0 =
      (match lastWriteTo s0 ws with
       | some v => v
       | none => sigState sys s0) := by
  induction ws generalizing sys with
  | nil => rfl
  | cons p rest ih =>
    show sigState (applyWrites rest (send p.1 p.2 sys)) s0 = _
    have hbnd' : ∀ q ∈ rest, q.1 < (send p.1 p.2 sys).sigs.length := by
      intro q hq
      rw [send_sigs_length]
      exact hbnd q (List.mem_cons_of_mem _ hq)
    rw [ih _ hbnd']
    rcases hl : lastWriteTo s0 rest with _ | v
    · simp only [lastWriteTo, hl]
      by_cases hp : p.1 = s0
      · simp only [hp, if_pos rfl]
        subst hp
        exact send_sigState_upd p.1 p.2 sys (hbnd p (by simp))
      · simp only [if_neg hp]
        exact send_sigState_other p.1 p.2 sys s0 (fun he => hp he.symm)
    · simp only [lastWriteTo, hl]

end WritesLemmas

section CompLemmas

variable {n : Nat}

theorem sigBelow_sigOnly {c : Comp V A} (h : SigBelow n c) : SigOnly c := by
  induction h with
  | pure a => exact .pure a
  | readSig i k hi h ih => exact .readSig i k ih

theorem sigBelow_reads {c : Comp V A} (h : SigBelow n c) (sv nv : Nat → V) :
    ∀ p ∈ readsC sv nv c, p.1 < n := by
  induction h with
  | pure a => intro p hp; cases hp
  | readSig i k hi h ih =>
    intro p hp
    simp only [readsC, List.mem_cons] at hp
    rcases hp with hp | hp
    · subst hp; exact hi
    · exact ih _ p hp

theorem evalC_sigOnly {c : Comp V A} (h : SigOnly c) (sv nv nv' : Nat → V) :
    evalC sv nv c = evalC sv nv' c := by
  induction h with
  | pure a => rfl
  | readSig i k h ih => simp only [evalC]; exact ih _

theorem readsC_sigOnly {c : Comp V A} (h : SigOnly c) (sv nv nv' : Nat → V) :
    readsC sv nv c = readsC sv nv' c := by
  induction h with
  | pure a => rfl
  | readSig i k h ih => simp only [readsC]; rw [ih _]

theorem evalC_mapC (f : A → B) (c : Comp V A) (sv nv : Nat → V) :
    evalC sv nv (mapC f c) = f (evalC sv nv c) := by
  induction c with
  | pure a => rfl
  | readSig i k ih => simp only [mapC, evalC]; exact ih _
  | readNode j k ih => simp only [mapC, evalC]; exact ih _

theorem readsC_mapC (f : A → B) (c : Comp V A) (sv nv : Nat → V) :
    readsC sv nv (mapC f c) = readsC sv nv c := by
  induction c with
  | pure a => rfl
  | readSig i k ih => simp only [mapC, readsC]; rw [ih]
  | readNode j k ih => simp only [mapC, readsC]; exact ih _

theorem sigOnly_mapC (f : A → B) {c : Comp V A} (h : SigOnly c) : SigOnly (mapC f c) := by
  induction h with
  | pure a => exact .pure _
  | readSig i k h ih => exact .readSig i _ ih

theorem evalC_frame (c : Comp V A) (sv sv' nv nv' : Nat → V) (i : Nat)
    (hsv : ∀ i', i' ≠ i → sv' i' = sv i') (hnv : ∀ j', nv' j' = nv j')
    (hcond : ∀ p ∈ readsC sv nv c, p.1 ≠ i) :
    evalC sv' nv' c = evalC sv nv c ∧ readsC sv' nv' c = readsC sv nv c := by
  induction c with
  | pure a => exact ⟨rfl, rfl⟩
  | readSig i' k ih =>
    have hne : i' ≠ i := hcond (i', sv i') (by simp [readsC])
    have hv : sv' i' = sv i' := hsv i' hne
    have htail : ∀ p ∈ readsC sv nv (k (sv i')), p.1 ≠ i := by
      intro p hp
      exact hcond p (by simp [readsC]; exact Or.inr hp)
    obtain ⟨h1, h2⟩ := ih (sv i') htail
    constructor
    · simp only [evalC, hv]
      exact h1
    · simp only [readsC, hv, h2]
  | readNode j k ih =>
    have hv : nv' j = nv j := hnv j
    obtain ⟨h1, h2⟩ := ih (nv j) (by intro p hp; exact hcond p hp)
    constructor
    · simp only [evalC, hv]
      exact h1
    · simp only [readsC, hv]
      exact h2

end CompLemmas

section InvCLemmas

variable [DecidableEq V] [Inhabited V] [Inhabited S]

theorem perform_nodeState_self (prog : Nat → S → Comp V (S × V)) (j : Nat) (sys : Sys V S)
    (hc : (getNode sys j).isComputed = true) (hjlen : j < sys.nodes.length) :
    nodeState (perform prog j sys) j =
      (track (some j) (prog j (getNode sys j).closure) sys).2.1.2 := by
  rw [perform_unfold, clearFlag_nodeState]
  rw [if_pos hc]
  apply commit_nodeState_self
  rw [setClosure_nodes_length]
  show j < (logRun _ _ _).nodes.length
  rw [logRun_nodes, track_nodes_length]
  exact hjlen

theorem perform_reg_self (prog : Nat → S → Comp V (S × V)) (j : Nat) (sys : Sys V S) :
    ∀ p ∈ readsC (sigState sys) (nodeState sys) (prog j (getNode sys j).closure),
      p.1 < sys.sigs.length → j ∈ (getSig (perform prog j sys) p.1).txn := by
  intro p hp hlt
  have hreg := track_reg j (prog j (getNode sys j).closure) sys p hp hlt
  rw [perform_unfold]
  show j ∈ (getSig (clearFlag _ _) p.1).txn
  simp only [getSig, clearFlag_sigs]
  split
  · rw [commit_sigs, setClosure_sigs, logRun_sigs]
    simpa [getSig] using hreg
  · rw [setClosure_sigs, logRun_sigs]
    simpa [getSig] using hreg

theorem drainStep_isComputed (prog : Nat → S → Comp V (S × V)) (sys : Sys V S) (j : Nat) :
    (getNode (drainStep prog sys) j).isComputed = (getNode sys j).isComputed := by
  rcases hq : sys.queue with _ | ⟨k, rest⟩
  · unfold drainStep; rw [hq]
  · unfold drainStep; rw [hq]
    exact perform_isComputed prog k {sys with queue := rest} j

theorem applyOp_isComputed (prog : Nat → S → Comp V (S × V)) (op : Op V) (sys : Sys V S)
    (j : Nat) : (getNode (applyOp prog op sys) j).isComputed = (getNode sys j).isComputed := by
  cases op with
  | write i v => exact send_isComputed i v sys j
  | flush => exact drainStep_isComputed prog sys j

theorem applyOp_sigs_length (prog : Nat → S → Comp V (S × V)) (op : Op V) (sys : Sys V S) :
    (applyOp prog op sys).sigs.length = sys.sigs.length := by
  cases op with
  | write i v => exact send_sigs_length i v sys
  | flush => exact drainStep_sigs_length prog sys

theorem applyOp_nodes_length (prog : Nat → S → Comp V (S × V)) (op : Op V) (sys : Sys V S) :
    (applyOp prog op sys).nodes.length = sys.nodes.length := by
  cases op with
  | write i v => exact send_nodes_length i v sys
  | flush => exact drainStep_nodes_length prog sys

theorem applyOp_wf (prog : Nat → S → Comp V (S × V)) (op : Op V) (sys : Sys V S)
    (hwf : Wf sys) : Wf (applyOp prog op sys) := by
  cases op with
  | write i v => exact wf_send i v sys hwf
  | flush => exact wf_drainStep prog sys hwf

theorem invC_send (j : Nat) (b : Comp V V) (i : Nat) (v : V) (sys : Sys V S)
    (hjlen : j < sys.nodes.length) (hInv : InvC j b sys) :
    InvC j b (send i v sys) := by
  rcases hInv with hflag | ⟨hstate, hreg⟩
  · exact Or.inl (send_flag_mono i v sys j hflag)
  · by_cases hv : sigState sys i = v
    · rw [send_eq_of_same hv]
      exact Or.inr ⟨hstate, hreg⟩
    · by_cases hmem : j ∈ (getSig sys i).txn
      · exact Or.inl (send_flag_mem i v sys j hv hmem hjlen)
      · right
        have hcond : ∀ p ∈ readsS (sigState sys) b, p.1 ≠ i := by
          intro p hp he
          apply hmem
          rw [← he]
          exact hreg p hp
        have hframe := evalC_frame b (sigState sys) (sigState (send i v sys))
          (fun _ => default) (fun _ => default) i
          (fun i' hi' => send_sigState_other i v sys i' hi')
          (fun _ => rfl) hcond
        constructor
        · rw [send_nodeState]
          rw [hstate]
          exact (hframe.1).symm
        · intro p hp
          rw [show readsS (sigState (send i v sys)) b =
              readsS (sigState sys) b from hframe.2] at hp
          have hne := hcond p hp
          rw [send_sig_txn_other i v sys p.1 hne]
          exact hreg p hp

theorem invC_drainStep (prog : Nat → S → Comp V (S × V)) (j : Nat) (b : Comp V V)
    (sys : Sys V S) (hprog : ∀ s, prog j s = mapC (fun v => (s, v)) b)
    (hb : SigBelow sys.sigs.length b)
    (hcomp : (getNode sys j).isComputed = true) (hjlen : j < sys.nodes.length)
    (hInv : InvC j b sys) : InvC j b (drainStep prog sys) := by
  rcases hq : sys.queue with _ | ⟨k, rest⟩
  · unfold drainStep; rw [hq]; exact hInv
  · unfold drainStep
    rw [hq]
    set sys' : Sys V S := {sys with queue := rest} with hsys'
    have hInv' : InvC j b sys' := hInv
    by_cases hkj : k = j
    · subst hkj
      right
      have hcomp' : (getNode sys' k).isComputed = true := hcomp
      have hjlen' : k < sys'.nodes.length := hjlen
      have hval : (track (some k) (prog k (getNode sys' k).closure) sys').2.1.2 =
          evalS (sigState sys') b := by
        rw [track_val, hprog, evalC_mapC]
        exact evalC_sigOnly (sigBelow_sigOnly hb) _ _ _
      constructor
      · rw [perform_nodeState_self prog k sys' hcomp' hjlen', hval]
        have heq : ∀ i', sigState (perform prog k sys') i' = sigState sys' i' :=
          perform_sigState prog k sys'
        unfold evalS
        rw [evalC_congr b heq (fun _ => rfl)]
      · intro p hp
        have hreads : readsC (sigState sys') (nodeState sys')
            (prog k (getNode sys' k).closure) = readsS (sigState sys') b := by
          rw [hprog, readsC_mapC]
          exact readsC_sigOnly (sigBelow_sigOnly hb) _ _ _
        have hp' : p ∈ readsC (sigState sys') (nodeState sys')
            (prog k (getNode sys' k).closure) := by
          rw [hreads]
          have heq : ∀ i', sigState (perform prog k sys') i' = sigState sys' i' :=
            perform_sigState prog k sys'
          rw [show readsS (sigState (perform prog k sys')) b =
              readsS (sigState sys') b by
            unfold readsS
            exact readsC_congr b heq (fun _ => rfl)] at hp
          exact hp
        apply perform_reg_self prog k sys' p hp'
        rw [hreads] at hp'
        exact sigBelow_reads hb _ _ p hp'
    · rcases hInv' with hflag | ⟨hstate, hreg⟩
      · exact Or.inl (perform_flag_other_mono prog k sys' j (fun h => hkj h.symm) hflag)
      · right
        have heq : ∀ i', sigState (perform prog k sys') i' = sigState sys' i' :=
          perform_sigState prog k sys'
        constructor
        · rw [perform_nodeState_other prog k sys' j (fun h => hkj h.symm)]
          rw [hstate]
          unfold evalS
          exact (evalC_congr b heq (fun _ => rfl)).symm
        · intro p hp
          rw [show readsS (sigState (perform prog k sys')) b =
              readsS (sigState sys') b by
            unfold readsS
            exact readsC_congr b heq (fun _ => rfl)] at hp
          exact perform_sig_txn_mono prog k sys' p.1 j (hreg p hp)

theorem invC_applyOps (prog : Nat → S → Comp V (S × V)) (j : Nat) (b : Comp V V)
    (ops : List (Op V)) (sys : Sys V S)
    (hprog : ∀ s, prog j s = mapC (fun v => (s, v)) b)
    (hb : SigBelow sys.sigs.length b)
    (hcomp : (getNode sys j).isComputed = true) (hjlen : j < sys.nodes.length)
    (hInv : InvC j b sys) : InvC j b (applyOps prog ops sys) := by
  induction ops generalizing sys with
  | nil => exact hInv
  | cons op rest ih =>
    show InvC j b (applyOps prog rest (applyOp prog op sys))
    apply ih
    · rw [applyOp_sigs_length]; exact hb
    · rw [applyOp_isComputed]; exact hcomp
    · rw [applyOp_nodes_length]; exact hjlen
    · cases op with
      | write i v => exact invC_send j b i v sys hjlen hInv
      | flush => exact invC_drainStep prog j b sys hprog hb hcomp hjlen hInv

end InvCLemmas

section InvTLemmas

variable {A : Type} [DecidableEq A]

theorem perform_closure_self (prog : Nat → S → Comp V (S × V)) (j : Nat) (sys : Sys V S)
    [DecidableEq V] [Inhabited V] [Inhabited S] (hjlen : j < sys.nodes.length) :
    (getNode (perform prog j sys) j).closure =
      (track (some j) (prog j (getNode sys j).closure) sys).2.1.1 := by
  rw [perform_unfold, clearFlag_closure]
  have hstep : (getNode (setClosure j (track (some j) (prog j (getNode sys j).closure) sys).2.1.1
      (logRun j (track (some j) (prog j (getNode sys j).closure) sys).2.2
        (track (some j) (prog j (getNode sys j).closure) sys).1)) j).closure =
      (track (some j) (prog j (getNode sys j).closure) sys).2.1.1 := by
    apply setClosure_closure_self
    show j < (logRun _ _ _).nodes.length
    rw [logRun_nodes, track_nodes_length]
    exact hjlen
  split
  · rw [commit_closure]
    exact hstep
  · exact hstep

theorem invT_send (j i i' : Nat) (v : Option A) (sys : Sys (Option A) (Option A × Bool))
    (hjlen : j < sys.nodes.length) (hInv : InvT j i sys) : InvT j i (send i' v sys) := by
  obtain ⟨h1, h2⟩ := hInv
  constructor
  · intro hc
    rw [send_closure] at hc ⊢
    rw [send_nodeState]
    exact h1 hc
  · rcases h2 with hflag | ⟨hcs, hcase⟩
    · exact Or.inl (send_flag_mono i' v sys j hflag)
    · rcases hcase with hcomplete | ⟨hss, hmem⟩
      · right
        rw [send_closure, send_nodeState]
        exact ⟨hcs, Or.inl hcomplete⟩
      · by_cases hii : i' = i
        · subst hii
          by_cases hv : sigState sys i' = v
          · rw [send_eq_of_same hv]
            exact Or.inr ⟨hcs, Or.inr ⟨hss, hmem⟩⟩
          · exact Or.inl (send_flag_mem i' v sys j hv hmem hjlen)
        · right
          rw [send_closure, send_nodeState]
          refine ⟨hcs, Or.inr ?_⟩
          rw [send_sigState_other i' v sys i (fun he => hii he.symm)]
          rw [send_sig_txn_other i' v sys i (fun he => hii he.symm)]
          exact ⟨hss, hmem⟩

theorem invT_perform_self (prog : Nat → (Option A × Bool) → Comp (Option A) ((Option A × Bool) × Option A))
    (j i : Nat) (sys : Sys (Option A) (Option A × Bool))
    (hprog : ∀ cl, prog j cl = takeValuesBody i cl)
    (hjlen : j < sys.nodes.length) (hilen : i < sys.sigs.length)
    (hcomp : (getNode sys j).isComputed = true) (hInv : InvT j i sys) :
    InvT j i (perform prog j sys) ∧
      ((getNode sys j).closure.2 = true →
        nodeState (perform prog j sys) j = nodeState sys j ∧
        (getNode (perform prog j sys) j).closure = (getNode sys j).closure) := by
  obtain ⟨h1, _⟩ := hInv
  set cl := (getNode sys j).closure with hcl
  have hstate : nodeState (perform prog j sys) j =
      (track (some j) (prog j cl) sys).2.1.2 :=
    perform_nodeState_self prog j sys hcomp hjlen
  have hclosure : (getNode (perform prog j sys) j).closure =
      (track (some j) (prog j cl) sys).2.1.1 :=
    perform_closure_self prog j sys hjlen
  have hval : (track (some j) (prog j cl) sys).2.1 =
      evalC (sigState sys) (nodeState sys) (takeValuesBody i cl) := by
    rw [track_val, hprog]
  by_cases hcl2 : cl.2 = true
  · have hbody : evalC (sigState sys) (nodeState sys) (takeValuesBody i cl) = (cl, cl.1) := by
      simp [takeValuesBody, hcl2, evalC]
    have hst : nodeState (perform prog j sys) j = cl.1 := by
      rw [hstate]
      rw [show (track (some j) (prog j cl) sys).2.1.2 =
        ((track (some j) (prog j cl) sys).2.1).2 from rfl]
      rw [hval, hbody]
    have hcls : (getNode (perform prog j sys) j).closure = cl := by
      rw [hclosure]
      rw [show (track (some j) (prog j cl) sys).2.1.1 =
        ((track (some j) (prog j cl) sys).2.1).1 from rfl]
      rw [hval, hbody]
    refine ⟨⟨?_, ?_⟩, ?_⟩
    · intro _
      rw [hcls, hst]
    · right
      rw [hcls, hst]
      exact ⟨rfl, Or.inl hcl2⟩
    · intro _
      rw [hst, hcls]
      exact ⟨h1 hcl2, hcl⟩
  · have hcl2' : cl.2 = false := by
      cases hb : cl.2
      · rfl
      · exact absurd hb hcl2
    rcases hv : sigState sys i with _ | a
    · have hbody : evalC (sigState sys) (nodeState sys) (takeValuesBody i cl) =
          ((cl.1, true), cl.1) := by
        simp [takeValuesBody, hcl2', evalC, hv]
      have hst : nodeState (perform prog j sys) j = cl.1 := by
        rw [hstate]
        rw [show (track (some j) (prog j cl) sys).2.1.2 =
          ((track (some j) (prog j cl) sys).2.1).2 from rfl]
        rw [hval, hbody]
      have hcls : (getNode (perform prog j sys) j).closure = (cl.1, true) := by
        rw [hclosure]
        rw [show (track (some j) (prog j cl) sys).2.1.1 =
          ((track (some j) (prog j cl) sys).2.1).1 from rfl]
        rw [hval, hbody]
      refine ⟨⟨?_, ?_⟩, ?_⟩
      · intro _
        rw [hcls, hst]
      · right
        rw [hcls, hst]
        exact ⟨rfl, Or.inl rfl⟩
      · intro hc
        rw [hcl2'] at hc
        cases hc
    · have hbody : evalC (sigState sys) (nodeState sys) (takeValuesBody i cl) =
          ((some a, false), some a) := by
        simp [takeValuesBody, hcl2', evalC, hv]
      have hst : nodeState (perform prog j sys) j = some a := by
        rw [hstate]
        rw [show (track (some j) (prog j cl) sys).2.1.2 =
          ((track (some j) (prog j cl) sys).2.1).2 from rfl]
        rw [hval, hbody]
      have hcls : (getNode (perform prog j sys) j).closure = (some a, false) := by
        rw [hclosure]
        rw [show (track (some j) (prog j cl) sys).2.1.1 =
          ((track (some j) (prog j cl) sys).2.1).1 from rfl]
        rw [hval, hbody]
      have hreads : (i, some a) ∈ readsC (sigState sys) (nodeState sys) (prog j cl) := by
        rw [hprog]
        simp [takeValuesBody, hcl2', readsC, hv]
      refine ⟨⟨?_, ?_⟩, ?_⟩
      · intro hc
        rw [hcls] at hc
        cases hc
      · right
        rw [hcls, hst]
        refine ⟨rfl, Or.inr ?_⟩
        constructor
        · rw [perform_sigState, hv]
        · exact perform_reg_self prog j sys (i, some a) hreads hilen
      · intro hc
        rw [hcl2'] at hc
        cases hc

theorem invT_drainStep (prog : Nat → (Option A × Bool) → Comp (Option A) ((Option A × Bool) × Option A))
    (j i : Nat) (sys : Sys (Option A) (Option A × Bool))
    (hprog : ∀ cl, prog j cl = takeValuesBody i cl)
    (hjlen : j < sys.nodes.length) (hilen : i < sys.sigs.length)
    (hcomp : (getNode sys j).isComputed = true) (hInv : InvT j i sys) :
    InvT j i (drainStep prog sys) ∧
      ((getNode sys j).closure.2 = true →
        nodeState (drainStep prog sys) j = nodeState sys j ∧
        (getNode (drainStep prog sys) j).closure = (getNode sys j).closure) := by
  rcases hq : sys.queue with _ | ⟨k, rest⟩
  · unfold drainStep
    rw [hq]
    exact ⟨hInv, fun _ => ⟨rfl, rfl⟩⟩
  · unfold drainStep
    rw [hq]
    set sys' : Sys (Option A) (Option A × Bool) := {sys with queue := rest} with hsys'
    have hInv' : InvT j i sys' := hInv
    by_cases hkj : k = j
    · subst hkj
      exact invT_perform_self prog k i sys' hprog hjlen hilen hcomp hInv'
    · obtain ⟨h1, h2⟩ := hInv'
      have hns := perform_nodeState_other prog k sys' j (fun h => hkj h.symm)
      have hcs := perform_closure_other prog k sys' j (fun h => hkj h.symm)
      refine ⟨⟨?_, ?_⟩, ?_⟩
      · intro hc
        rw [hcs] at hc ⊢
        rw [hns]
        exact h1 hc
      · rcases h2 with hflag | ⟨ha, hb⟩
        · exact Or.inl (perform_flag_other_mono prog k sys' j (fun h => hkj h.symm) hflag)
        · right
          rw [hcs, hns]
          refine ⟨ha, ?_⟩
          rcases hb with hb | ⟨hb1, hb2⟩
          · exact Or.inl hb
          · refine Or.inr ⟨?_, ?_⟩
            · rw [perform_sigState]
              exact hb1
            · exact perform_sig_txn_mono prog k sys' i j hb2
      · intro _
        exact ⟨hns, hcs⟩

theorem invT_applyOps (prog : Nat → (Option A × Bool) → Comp (Option A) ((Option A × Bool) × Option A))
    (j i : Nat) (ops : List (Op (Option A))) (sys : Sys (Option A) (Option A × Bool))
    (hprog : ∀ cl, prog j cl = takeValuesBody i cl)
    (hjlen : j < sys.nodes.length) (hilen : i < sys.sigs.length)
    (hcomp : (getNode sys j).isComputed = true) (hInv : InvT j i sys) :
    InvT j i (applyOps prog ops sys) ∧
      ((getNode sys j).closure.2 = true →
        nodeState (applyOps prog ops sys) j = nodeState sys j ∧
        (getNode (applyOps prog ops sys) j).closure = (getNode sys j).closure) := by
  induction ops generalizing sys with
  | nil => exact ⟨hInv, fun _ => ⟨rfl, rfl⟩⟩
  | cons op rest ih =>
    have hstep : InvT j i (applyOp prog op sys) ∧
        ((getNode sys j).closure.2 = true →
          nodeState (applyOp prog op sys) j = nodeState sys j ∧
          (getNode (applyOp prog op sys) j).closure = (getNode sys j).closure) := by
      cases op with
      | write i' v =>
        refine ⟨invT_send j i i' v sys hjlen hInv, ?_⟩
        intro _
        exact ⟨send_nodeState i' v sys j, send_closure i' v sys j⟩
      | flush => exact invT_drainStep prog j i sys hprog hjlen hilen hcomp hInv
    obtain ⟨hstepInv, hstepPerm⟩ := hstep
    have hrest := ih (applyOp prog op sys)
      (by rw [applyOp_nodes_length]; exact hjlen)
      (by rw [applyOp_sigs_length]; exact hilen)
      (by rw [applyOp_isComputed]; exact hcomp)
      hstepInv
    refine ⟨hrest.1, ?_⟩
    intro hc
    obtain ⟨hp1, hp2⟩ := hstepPerm hc
    have hc' : (getNode (applyOp prog op sys) j).closure.2 = true := by
      rw [hp2]; exact hc
    obtain ⟨hq1, hq2⟩ := hrest.2 hc'
    constructor
    · show nodeState (applyOps prog rest (applyOp prog op sys)) j = _
      rw [hq1, hp1]
    · show (getNode (applyOps prog rest (applyOp prog op sys)) j).closure = _
      rw [hq2, hp2]

end InvTLemmas

section OpsLemmas

variable [DecidableEq V] [Inhabited V] [Inhabited S]

theorem applyOps_wf (prog : Nat → S → Comp V (S × V)) (ops : List (Op V)) (sys : Sys V S)
    (hwf : Wf sys) : Wf (applyOps prog ops sys) := by
  induction ops generalizing sys with
  | nil => exact hwf
  | cons op rest ih =>
    show Wf (applyOps prog rest (applyOp prog op sys))
    exact ih _ (applyOp_wf prog op sys hwf)

theorem applyOps_nodes_length (prog : Nat → S → Comp V (S × V)) (ops : List (Op V))
    (sys : Sys V S) : (applyOps prog ops sys).nodes.length = sys.nodes.length := by
  induction ops generalizing sys with
  | nil => rfl
  | cons op rest ih =>
    show (applyOps prog rest (applyOp prog op sys)).nodes.length = _
    rw [ih, applyOp_nodes_length]

theorem applyOps_sigs_length (prog : Nat → S → Comp V (S × V)) (ops : List (Op V))
    (sys : Sys V S) : (applyOps prog ops sys).sigs.length = sys.sigs.length := by
  induction ops generalizing sys with
  | nil => rfl
  | cons op rest ih =>
    show (applyOps prog rest (applyOp prog op sys)).sigs.length = _
    rw [ih, applyOp_sigs_length]

theorem flag_false_of_quiescent (sys : Sys V S) (j : Nat) (hwf : Wf sys)
    (hq : sys.queue = []) (hjlen : j < sys.nodes.length) : flagOf sys j = false := by
  cases hf : flagOf sys j
  · rfl
  · have := (hwf.flagQueue j hjlen).1 hf
    rw [hq] at this
    cases this

end OpsLemmas

end Track

namespace Obs

variable {V : Type}

theorem setValue_eq_of_same [DecidableEq V] [Inhabited V] {i : Nat} {v : V} {sys : Sys V}
    (h : sigValue sys i = v) : setValue i v sys = sys := by
  simp only [setValue]
  rw [if_pos]
  exact h

theorem setValue_runCounts [DecidableEq V] [Inhabited V] (i : Nat) (v : V) (sys : Sys V) :
    (setValue i v sys).runCounts = sys.runCounts := by
  simp only [setValue]
  split
  · rfl
  · split
    · rfl
    · rfl

end Obs

/-! ## Claim theorems -/

namespace Obs

/-- C5 (code_bug): `reductions` promises that a `Reduced` sentinel cancels the
upstream subscription and retains the wrapped value, but when `step` returns
`Reduced` on the very first, synchronously delivered upstream value, the
callback invokes `cancel` before the `const cancel` binding is initialized, so
construction crashes with a `ReferenceError` instead: the subscription is not
cancelled and no value is retained.  Evaluated at the failing input
`reductions((s, v) => new Reduced(v), source, 0)` with the source signal
currently holding `7`. -/
theorem C5_reduced_on_immediate_value_crashes :
    (reductionsRun stepImmediate 0 7 []).crashed = true ∧
      (reductionsRun stepImmediate 0 7 []).cancelled = false := by
  constructor
  · rfl
  · rfl

/-- Permanence of a completed reduction for every later emission: once the
stepping function has returned `Reduced w` on an emission delivered after
construction, the derived signal's value is `w` forever and the subscription
stays cancelled. -/
theorem reductions_early_termination (step : Int → Int → StepRes Int) (st : RedSt Int)
    (v w : Int) (rest : List Int) (hok : st.crashed = false) (hactive : st.cancelled = false)
    (hred : step st.value v = .reduced w) :
    (rest.foldl (reductionsEmit step) (reductionsEmit step st v)).value = w ∧
      (rest.foldl (reductionsEmit step) (reductionsEmit step st v)).cancelled = true := by
  have hstep : reductionsEmit step st v = {value := w, cancelled := true, crashed := false} := by
    simp [reductionsEmit, hok, hactive, hred]
  rw [hstep]
  clear hstep
  induction rest with
  | nil => exact ⟨rfl, rfl⟩
  | cons e rest ih =>
    show ((rest.foldl (reductionsEmit step)
      (reductionsEmit step {value := w, cancelled := true, crashed := false} e))).value = w ∧ _
    have : reductionsEmit step {value := w, cancelled := true, crashed := false} e =
        {value := w, cancelled := true, crashed := false} := by
      simp [reductionsEmit]
    rw [this]
    exact ih

/-- Witness for `reductions_early_termination` at a concrete input. -/
theorem reductions_early_termination_witness :
    (([9, 11] : List Int).foldl (reductionsEmit stepImmediate)
        (reductionsEmit stepImmediate {value := 1, cancelled := false, crashed := false} 5)).value = 5 ∧
      (([9, 11] : List Int).foldl (reductionsEmit stepImmediate)
        (reductionsEmit stepImmediate {value := 1, cancelled := false, crashed := false} 5)).cancelled = true :=
  reductions_early_termination stepImmediate
    {value := 1, cancelled := false, crashed := false} 5 5 [9, 11] rfl rfl rfl

/-- C8 (counterexample): in the scenario `x = 1`, `y = 2`,
`sum = sample([x, y], () => x() + y())`, writing `x := 10` and `y := 20` in the
same tick makes the resample closure run twice during the flush (once per
trigger signal's dispatch), not once as the claim states. -/
theorem C8_resample_twice_counterexample :
    ¬ (getD c8After.runCounts 0 0 = getD c8Base.runCounts 0 0 + 1) := by
  decide

/-- C8 (amended): after the flush, `sum` reads exactly `30` and the system is
quiescent, but the resample closure was evaluated once per changed trigger —
twice — with the second evaluation writing an unchanged value downstream. -/
theorem C8_sample_scenario :
    sigValue c8After 2 = 30 ∧
      getD c8After.runCounts 0 0 = getD c8Base.runCounts 0 0 + 2 ∧
      c8After.queue = [] := by
  refine ⟨?_, ?_, ?_⟩ <;> decide

/-- C9 (confirmed): `setCancel` throws a `TypeError` exactly when the cancel
argument is not callable; otherwise it stores the function under the hidden
symbol, leaving the rest of the object unchanged, and `cancel` invokes the
stored function when present and is a no-op when none is present. -/
theorem C9_cancel_protocol (obj : Carrier) (c : JSVal) :
    (isFunction c = false →
      setCancel obj c = .error "TypeError: cancel must be a function") ∧
    (∀ f, c = .fn f → setCancel obj c = .ok {obj with cancelSlot := some (.fn f)}) ∧
    (∀ obj', setCancel obj c = .ok obj' → obj'.payload = obj.payload) ∧
    (obj.cancelSlot = none → cancel obj = none) ∧
    (∀ f, obj.cancelSlot = some (.fn f) → cancel obj = some f) := by
  refine ⟨?_, ?_, ?_, ?_, ?_⟩
  · intro h
    cases c with
    | fn f => cases h
    | num n => rfl
    | str => rfl
    | nullv => rfl
    | undef => rfl
  · intro f hf
    subst hf
    rfl
  · intro obj' h
    cases c with
    | fn f =>
      simp only [setCancel, Except.ok.injEq] at h
      rw [← h]
    | num n => cases h
    | str => cases h
    | nullv => cases h
    | undef => cases h
  · intro h
    simp [cancel, h]
  · intro f hf
    simp [cancel, hf]

/-- Witness for `C9_cancel_protocol` at a concrete object and argument. -/
theorem C9_cancel_protocol_witness :
    (isFunction (JSVal.num 3) = false →
      setCancel ⟨7, some (.fn 4)⟩ (JSVal.num 3) =
        .error "TypeError: cancel must be a function") ∧
    (∀ f, JSVal.num 3 = .fn f →
      setCancel ⟨7, some (.fn 4)⟩ (JSVal.num 3) = .ok {payload := 7, cancelSlot := some (.fn f)}) ∧
    (∀ obj', setCancel ⟨7, some (.fn 4)⟩ (JSVal.num 3) = .ok obj' → obj'.payload = 7) ∧
    ((⟨7, some (.fn 4)⟩ : Carrier).cancelSlot = none → cancel ⟨7, some (.fn 4)⟩ = none) ∧
    (∀ f, (⟨7, some (.fn 4)⟩ : Carrier).cancelSlot = some (.fn f) →
      cancel ⟨7, some (.fn 4)⟩ = some f) :=
  C9_cancel_protocol ⟨7, some (.fn 4)⟩ (JSVal.num 3)

/-- C4 (counterexample): in the observer-based store, an effect that resolves
to nothing still produces a `send` call — `run = async effect =>
send(await effect)` has no null check — so the claim's "no send call if it
resolves to nothing" fails there: resolving the empty effect invokes the
update function and changes the state. -/
theorem C4_empty_resolution_counterexample :
    ¬ ((resolveEffect updCount0 0 stPendingEmpty).sends = stPendingEmpty.sends) ∧
      (resolveEffect updCount0 0 stPendingEmpty).sends = [none] ∧
      (resolveEffect updCount0 0 stPendingEmpty).state = 1 := by
  refine ⟨?_, ?_, ?_⟩ <;> decide

end Obs

/-- C4 (amended): in both stores, `send(msg)` synchronously sets the state to
`update(previousState, msg).state` and queues each transaction effect, and
each pending effect is consumed exactly once.  In the tracking-based store an
effect resolving to a message produces exactly one further `send` of that
message while an effect resolving to nothing produces no `send` call; in the
observer-based store every resolution — including an empty one — produces
exactly one `send` call of the resolved value. -/
theorem C4_store_roundtrip {V M : Type}
    (upd : V → M → V × List (Option M)) (m : M) (st : Track.StoreSt V M)
    (upd0 : V → Option M → V × List (Option M)) (m0 : Option M) (st0 : Obs.StoreSt V M)
    (k : Nat) :
    ((Track.storeSend upd m st).state = (upd st.state m).1 ∧
      (Track.storeSend upd m st).sends = st.sends ++ [m] ∧
      (Track.storeSend upd m st).pending = st.pending ++ (upd st.state m).2) ∧
    (getD st.pending k none = none → k < st.pending.length →
      (Track.resolveEffect upd k st).sends = st.sends ∧
      (Track.resolveEffect upd k st).state = st.state ∧
      (Track.resolveEffect upd k st).pending = st.pending.eraseIdx k) ∧
    (∀ m', getD st.pending k none = some m' →
      (Track.resolveEffect upd k st).sends = st.sends ++ [m'] ∧
      (Track.resolveEffect upd k st).state = (upd st.state m').1) ∧
    ((Obs.storeSend upd0 m0 st0).state = (upd0 st0.state m0).1 ∧
      (Obs.storeSend upd0 m0 st0).sends = st0.sends ++ [m0]) ∧
    (k < st0.pending.length →
      (Obs.resolveEffect upd0 k st0).sends = st0.sends ++ [getD st0.pending k none] ∧
      (Obs.resolveEffect upd0 k st0).state = (upd0 st0.state (getD st0.pending k none)).1) := by
  refine ⟨⟨rfl, rfl, rfl⟩, ?_, ?_, ⟨rfl, rfl⟩, ?_⟩
  · intro h hk
    simp only [Track.resolveEffect, h]
    rw [if_pos hk]
    exact ⟨rfl, rfl, rfl⟩
  · intro m' h
    simp only [Track.resolveEffect, h]
    exact ⟨rfl, rfl⟩
  · intro hk
    simp only [Obs.resolveEffect]
    rw [if_pos hk]
    exact ⟨rfl, rfl⟩

/-- Witness for `C4_store_roundtrip` at concrete stores: a tracking store with
one pending empty effect, and an observer store with one pending empty
effect. -/
theorem C4_store_roundtrip_witness :
    ((Track.storeSend Track.updCount 3 ⟨0, [none], []⟩).state = 1 ∧
      (Track.storeSend Track.updCount 3 ⟨0, [none], []⟩).sends = [3] ∧
      (Track.storeSend Track.updCount 3 ⟨0, [none], []⟩).pending = [none]) ∧
    ((Track.resolveEffect Track.updCount 0 ⟨0, [none], []⟩).sends = [] ∧
      (Track.resolveEffect Track.updCount 0 ⟨0, [none], []⟩).state = 0 ∧
      (Track.resolveEffect Track.updCount 0 ⟨0, [none], []⟩).pending = []) ∧
    ((Obs.resolveEffect Obs.updCount0 0 Obs.stPendingEmpty).sends = [none] ∧
      (Obs.resolveEffect Obs.updCount0 0 Obs.stPendingEmpty).state = 1) := by
  have h := C4_store_roundtrip Track.updCount 3
    (⟨0, [none], []⟩ : Track.StoreSt Nat Nat) Obs.updCount0 none Obs.stPendingEmpty 0
  obtain ⟨h1, h2, _, _, h5⟩ := h
  refine ⟨?_, ?_, ?_⟩
  · exact ⟨h1.1, h1.2.1, h1.2.2⟩
  · obtain ⟨g1, g2, g3⟩ := h2 (by decide) (by decide)
    exact ⟨g1, g2, g3⟩
  · obtain ⟨g1, g2⟩ := h5 (by decide)
    exact ⟨g1, g2⟩

/-- C7 (confirmed): a write never runs downstream recomputation synchronously.
In the tracking implementation `send` only stores the value and schedules
throttled jobs: the run log, every node's stored value, and every node's
closure state are unchanged by the write itself — recomputation happens only
when the microtask queue is drained.  In the observer implementation
`setValue` likewise defers dispatch: no observer callback runs during the
write. -/
theorem C7_write_defers_propagation {V S V' : Type} [DecidableEq V] [Inhabited V]
    [Inhabited S] [DecidableEq V'] [Inhabited V'] (i : Nat) (v : V)
    (sys : Track.Sys V S) (i' : Nat) (v' : V') (sysA : Obs.Sys V') :
    (Track.send i v sys).log = sys.log ∧
    (∀ j, Track.nodeState (Track.send i v sys) j = Track.nodeState sys j) ∧
    (∀ j, (Track.getNode (Track.send i v sys) j).closure =
      (Track.getNode sys j).closure) ∧
    (Obs.setValue i' v' sysA).runCounts = sysA.runCounts := by
  refine ⟨Track.send_log i v sys, ?_, ?_, Obs.setValue_runCounts i' v' sysA⟩
  · intro j; exact Track.send_nodeState i v sys j
  · intro j; exact Track.send_closure i v sys j

/-- C6 (confirmed): writing a value equal to the current one (under the `!==`
inequality comparison) is a complete no-op in both signal implementations —
the stored value is untouched and no listener is notified, because the system
state is literally unchanged.  When the write does change the value, the new
value is stored, no tracked function runs synchronously (the log is
unchanged), and exactly the listeners registered in the signal's transaction
are scheduled. -/
theorem C6_write_change_detection {V S V' : Type} [DecidableEq V] [Inhabited V]
    [Inhabited S] [DecidableEq V'] [Inhabited V'] (i : Nat) (v : V)
    (sys : Track.Sys V S) (i' : Nat) (v' : V') (sysA : Obs.Sys V') :
    (Track.sigState sys i = v → Track.send i v sys = sys) ∧
    (¬ Track.sigState sys i = v → i < sys.sigs.length →
      Track.sigState (Track.send i v sys) i = v ∧
      (Track.send i v sys).log = sys.log ∧
      (∀ k ∈ (Track.getSig sys i).txn, k < sys.nodes.length →
        Track.flagOf (Track.send i v sys) k = true) ∧
      (∀ k, k ∉ (Track.getSig sys i).txn →
        Track.flagOf (Track.send i v sys) k = Track.flagOf sys k)) ∧
    (Obs.sigValue sysA i' = v' → Obs.setValue i' v' sysA = sysA) := by
  refine ⟨?_, ?_, ?_⟩
  · intro h
    exact Track.send_eq_of_same h
  · intro hne hlt
    refine ⟨Track.send_sigState_upd i v sys hlt, Track.send_log i v sys, ?_, ?_⟩
    · intro k hk hklen
      exact Track.send_flag_mem i v sys k hne hk hklen
    · intro k hk
      exact Track.send_flag_notMem i v sys k hk
  · intro h
    exact Obs.setValue_eq_of_same h

/-- Witness for `C6_write_change_detection`: an equal write to a concrete
tracking signal and a changed write's effects, plus an equal write to a
concrete observer signal. -/
theorem C6_write_change_detection_witness :
    (Track.send 0 (some 0) Track.c2Base = Track.c2Base) ∧
    (Track.sigState (Track.send 0 (some 5) Track.c2Base) 0 = some 5 ∧
      (Track.send 0 (some 5) Track.c2Base).log = Track.c2Base.log ∧
      Track.flagOf (Track.send 0 (some 5) Track.c2Base) 0 = true) ∧
    (Obs.setValue 0 1 Obs.c8Base = Obs.c8Base) := by
  have h := C6_write_change_detection 0 (some 0 : Track.VI) Track.c2Base 0 (1 : Int) Obs.c8Base
  have h5 := C6_write_change_detection 0 (some 5 : Track.VI) Track.c2Base 0 (1 : Int) Obs.c8Base
  refine ⟨h.1 (by decide), ?_, h.2.2 (by decide)⟩
  obtain ⟨g1, g2, g3, _⟩ := h5.2.1 (by decide) (by decide)
  exact ⟨g1, g2, g3 0 (by decide) (by decide)⟩

namespace Track

/-- C1 (counterexample): with a value signal, a computed derived from it, and
an effect whose tracked function reads both the signal and the computed —
registered on the signal ahead of the computed — a single write to the signal
re-executes the effect's tracked function twice within the drained tick: once
through its own registration (observing the stale computed) and once more when
the computed's change notification reschedules it. -/
theorem C1_effect_runs_twice_counterexample :
    c1Ready.queue = [] ∧
      countRuns 1 c1After.log = countRuns 1 c1Ready.log + 2 ∧
      ¬ (countRuns 1 c1After.log ≤ countRuns 1 c1Ready.log + 1) := by
  refine ⟨?_, ?_, ?_⟩ <;> decide

/-- C2 (counterexample): for the computed `c = useComputed(() => a() + 1)`
with `a = 0`, immediately after the synchronous write `a := 5` — before the
scheduled recompute flushes — reading `c` still returns `1`, while `compute()`
evaluated against the current value of its dependency is `6`: the claim's "at
every point after construction" fails between a write and its flush. -/
theorem C2_stale_read_counterexample :
    read (send 0 (some 5) c2Base) 0 = some 1 ∧
      sigState (send 0 (some 5) c2Base) 0 = some 5 ∧
      evalS (sigState (send 0 (some 5) c2Base)) bC2 = some 6 ∧
      ¬ (read (send 0 (some 5) c2Base) 0 =
        evalS (sigState (send 0 (some 5) c2Base)) bC2) := by
  refine ⟨?_, ?_, ?_, ?_⟩ <;> decide

/-- C3 (counterexample): a tracked function reads the gate signal and, while
the gate was open, signal 1.  After the gate closes, its most recent run no
longer reads signal 1, yet the next write to signal 1 still re-executes the
tracked function once, through the stale one-shot registration left by the
earlier run; only after that registration is consumed do further writes stop
triggering re-runs. -/
theorem C3_stale_registration_counterexample :
    c3Mid.log.getLast? = some (0, [(0, some 0)]) ∧
      countRuns 0 c3Mid.log = 2 ∧
      countRuns 0 c3After.log = 3 ∧
      countRuns 0 c3Final.log = 3 ∧
      ¬ (countRuns 0 c3After.log = countRuns 0 c3Mid.log) := by
  refine ⟨?_, ?_, ?_, ?_, ?_⟩ <;> decide

/-- C10 (counterexample): with `s = some 1` and `t = takeValues(s)`, the
synchronous write `s := 2` leaves `t` reading the stale `some 1` until the
scheduled recompute flushes, so `t`'s value does not equal `s`'s value even
though that value is non-null. -/
theorem C10_stale_counterexample :
    read (send 0 (some 2) t10Base) 0 = some 1 ∧
      sigState (send 0 (some 2) t10Base) 0 = some 2 ∧
      ¬ (read (send 0 (some 2) t10Base) 0 = sigState (send 0 (some 2) t10Base) 0) := by
  refine ⟨?_, ?_, ?_⟩ <;> decide

end Track

namespace Track

/-- C1 (amended): for an Effect whose tracked function reads only signals
directly, any finite sequence of writes within one tick — starting from a
quiescent, well-formed state — re-executes the tracked function at most once
during the drain, and every signal read that run performs observes the
post-write value; in particular a read of a signal written in the tick
observes the last value written to it. -/
theorem C1_effect_batching {V S : Type} [DecidableEq V] [Inhabited V] [Inhabited S]
    (prog : Nat → S → Comp V (S × V)) (sys : Sys V S) (e : Nat)
    (ws : List (Nat × V)) (n : Nat) (s0 : Nat) (v0 : V)
    (hwf : Wf sys) (_hq : sys.queue = [])
    (hsig : ∀ s, SigOnly (prog e s)) (hnt : notInNodeTxns e sys)
    (hws : ∀ p ∈ ws, p.1 < sys.sigs.length)
    (hlast : lastWriteTo s0 ws = some v0) :
    countRuns e (flushN prog n (applyWrites ws sys)).log ≤ countRuns e sys.log + 1 ∧
      ∃ tail, (flushN prog n (applyWrites ws sys)).log = sys.log ++ tail ∧
        ∀ entry ∈ tail, ∀ p ∈ entry.2, p.1 = s0 → p.2 = v0 := by
  have hwfW : Wf (applyWrites ws sys) := applyWrites_wf ws sys hwf
  have hntW : notInNodeTxns e (applyWrites ws sys) := applyWrites_notInNodeTxns ws sys e hnt
  have hlogW : (applyWrites ws sys).log = sys.log := applyWrites_log ws sys
  have hcount : (applyWrites ws sys).queue.count e ≤ 1 :=
    List.nodup_iff_count_le_one.1 hwfW.nodupQ e
  have heq : eCount e (flushN prog n (applyWrites ws sys)) = eCount e (applyWrites ws sys) :=
    eCount_flushN prog n (applyWrites ws sys) e hwfW hntW hsig
  constructor
  · calc countRuns e (flushN prog n (applyWrites ws sys)).log
        ≤ eCount e (flushN prog n (applyWrites ws sys)) := Nat.le_add_right _ _
      _ = eCount e (applyWrites ws sys) := heq
      _ = countRuns e sys.log + (applyWrites ws sys).queue.count e := by
          simp [eCount, hlogW]
      _ ≤ countRuns e sys.log + 1 := Nat.add_le_add_left hcount _
  · obtain ⟨tail, hlog, hreads⟩ := flushN_log_extend prog n (applyWrites ws sys)
    refine ⟨tail, ?_, ?_⟩
    · rw [hlog, hlogW]
    · intro entry he p hp hps
      have h2 := hreads entry he p hp
      rw [h2, hps]
      have h3 := applyWrites_sigState_last ws sys s0 hws
      rw [hlast] at h3
      exact h3

/-- Witness for `C1_effect_batching`: an effect over one signal, two writes in
one tick, drained. -/
theorem C1_effect_batching_witness :
    countRuns 0 (flushN progE 2 (applyWrites [(0, some 1), (0, some 2)] e1Base)).log ≤
        countRuns 0 e1Base.log + 1 ∧
      ∃ tail, (flushN progE 2 (applyWrites [(0, some 1), (0, some 2)] e1Base)).log =
          e1Base.log ++ tail ∧
        ∀ entry ∈ tail, ∀ p ∈ entry.2, p.1 = 0 → p.2 = some 2 :=
  C1_effect_batching progE e1Base 0 [(0, some 1), (0, some 2)] 2 0 (some 2)
    ⟨by decide, by decide, by decide, by decide, by decide⟩
    (by decide)
    (fun s => SigOnly.readSig 0 _ (fun v => SigOnly.pure _))
    (by unfold notInNodeTxns; decide) (by decide) (by decide)

/-- C2 (amended): for a Computed built from a pure, signal-only compute
function, the consistency invariant holds after any interleaving of writes and
microtask flushes: either a recompute is pending, or the stored value equals
`compute()` evaluated against the current signal values with the computed
registered on every signal it currently reads.  In particular, whenever no
recompute is pending (the queue is empty), reading the computed returns
exactly `compute()` at the current dependency values — never a mixture;
between a dependency write and its flush the previous evaluation's value is
returned instead (see the counterexample). -/
theorem C2_computed_consistency {V S : Type} [DecidableEq V] [Inhabited V] [Inhabited S]
    (prog : Nat → S → Comp V (S × V)) (j : Nat) (b : Comp V V)
    (ops : List (Op V)) (sys : Sys V S)
    (hprog : ∀ s, prog j s = mapC (fun v => (s, v)) b)
    (hb : SigBelow sys.sigs.length b)
    (hcomp : (getNode sys j).isComputed = true)
    (hjlen : j < sys.nodes.length)
    (hwf : Wf sys) (hInv : InvC j b sys) :
    InvC j b (applyOps prog ops sys) ∧
      ((applyOps prog ops sys).queue = [] →
        read (applyOps prog ops sys) j = evalS (sigState (applyOps prog ops sys)) b ∧
        ∀ p ∈ readsS (sigState (applyOps prog ops sys)) b,
          j ∈ (getSig (applyOps prog ops sys) p.1).txn) := by
  have hInv' := invC_applyOps prog j b ops sys hprog hb hcomp hjlen hInv
  refine ⟨hInv', ?_⟩
  intro hq
  have hwf' := applyOps_wf prog ops sys hwf
  have hjlen' : j < (applyOps prog ops sys).nodes.length := by
    rw [applyOps_nodes_length]; exact hjlen
  have hflag := flag_false_of_quiescent _ j hwf' hq hjlen'
  rcases hInv' with hf | ⟨h1, h2⟩
  · rw [hflag] at hf; cases hf
  · exact ⟨h1, h2⟩

/-- Witness for `C2_computed_consistency`: the computed `() => a() + 1` after
the write `a := 5` and two flushes reads `6` and is registered on its
dependency. -/
theorem C2_computed_consistency_witness :
    read (applyOps progC2 [.write 0 (some 5), .flush, .flush] c2Base) 0 = some 6 ∧
      0 ∈ (getSig (applyOps progC2 [.write 0 (some 5), .flush, .flush] c2Base) 0).txn := by
  have h := C2_computed_consistency progC2 0 bC2 [.write 0 (some 5), .flush, .flush] c2Base
    (fun s => rfl)
    (SigBelow.readSig 0 _ (by decide) (fun v => SigBelow.pure _))
    (by decide) (by decide)
    ⟨by decide, by decide, by decide, by decide, by decide⟩
    (by unfold InvC; decide)
  obtain ⟨ha, hb⟩ := h.2 (by decide)
  constructor
  · rw [ha]
    decide
  · exact hb (0, some 5) (by decide)

/-- C3 (amended): registrations are one-shot.  For a tracked computation whose
function reads only signals, starting quiescent: (1) if the computation is not
currently registered on signal `X` — which holds once `X` has notified since
the last run that read it — a write to `X` triggers no re-run at all; (2) if
it is registered on `X` (a previous run read `X`, or a stale registration
remains), a changed write to `X` followed by a full drain re-executes the
tracked function exactly once; (3) a run re-registers the computation on every
signal it reads, so reading `X` again makes writes to `X` resume triggering
re-runs. -/
theorem C3_dynamic_dependency {V S : Type} [DecidableEq V] [Inhabited V] [Inhabited S]
    (prog : Nat → S → Comp V (S × V)) (sys : Sys V S) (e X : Nat) (v : V) (n : Nat)
    (hwf : Wf sys) (hq : sys.queue = []) (hsig : ∀ s, SigOnly (prog e s))
    (hnt : notInNodeTxns e sys) :
    (e ∉ (getSig sys X).txn →
      countRuns e (flushN prog n (send X v sys)).log = countRuns e sys.log) ∧
    (e ∈ (getSig sys X).txn → ¬ sigState sys X = v → e < sys.nodes.length →
      (flushN prog n (send X v sys)).queue = [] →
      countRuns e (flushN prog n (send X v sys)).log = countRuns e sys.log + 1) ∧
    (∀ p ∈ readsC (sigState sys) (nodeState sys) (prog e (getNode sys e).closure),
      p.1 < sys.sigs.length → e ∈ (getSig (perform prog e sys) p.1).txn) := by
  have hwfS : Wf (send X v sys) := wf_send X v sys hwf
  have hntS : notInNodeTxns e (send X v sys) := send_notInNodeTxns X v sys e hnt
  have hlogS : (send X v sys).log = sys.log := send_log X v sys
  have heq : eCount e (flushN prog n (send X v sys)) = eCount e (send X v sys) :=
    eCount_flushN prog n (send X v sys) e hwfS hntS hsig
  obtain ⟨tail, hlog, _⟩ := flushN_log_extend prog n (send X v sys)
  have hsplit : countRuns e (flushN prog n (send X v sys)).log =
      countRuns e sys.log + countRuns e tail := by
    rw [hlog, hlogS, countRuns_append]
  refine ⟨?_, ?_, ?_⟩
  · intro hmem
    have hcq : (send X v sys).queue.count e = 0 := by
      rw [send_queue_count_other X v sys e hmem, hq]
      rfl
    have h2 : eCount e (send X v sys) = countRuns e sys.log := by
      simp [eCount, hlogS, hcq]
    have h3 : countRuns e (flushN prog n (send X v sys)).log ≤ countRuns e sys.log := by
      calc countRuns e (flushN prog n (send X v sys)).log
          ≤ eCount e (flushN prog n (send X v sys)) := Nat.le_add_right _ _
        _ = countRuns e sys.log := by rw [heq, h2]
    omega
  · intro hmem hchanged helen hdone
    have hflag : flagOf (send X v sys) e = true := send_flag_mem X v sys e hchanged hmem helen
    have helen' : e < (send X v sys).nodes.length := by
      rw [send_nodes_length]; exact helen
    have hmemq : e ∈ (send X v sys).queue := (hwfS.flagQueue e helen').1 hflag
    have hcq : (send X v sys).queue.count e = 1 :=
      List.count_eq_one_of_mem hwfS.nodupQ hmemq
    have h2 : eCount e (send X v sys) = countRuns e sys.log + 1 := by
      simp [eCount, hlogS, hcq]
    have h3 : eCount e (flushN prog n (send X v sys)) =
        countRuns e (flushN prog n (send X v sys)).log := by
      simp [eCount, hdone]
    rw [h3, h2] at heq
    exact heq
  · intro p hp hlt
    exact perform_reg_self prog e sys p hp hlt

/-- Witness for `C3_dynamic_dependency`: an effect reading only signal 0 is
not re-run by a write to the unread signal 1; it is re-run exactly once by a
changed write to signal 0; and its run registers it on signal 0. -/
theorem C3_dynamic_dependency_witness :
    countRuns 0 (flushN progE 2 (send 1 (some 9) e2Base)).log = countRuns 0 e2Base.log ∧
      countRuns 0 (flushN progE 2 (send 0 (some 3) e1Base)).log =
        countRuns 0 e1Base.log + 1 ∧
      0 ∈ (getSig (perform progE 0 e1Base) 0).txn := by
  have hsig : ∀ s : SI, SigOnly (progE 0 s) :=
    fun s => SigOnly.readSig 0 _ (fun v => SigOnly.pure _)
  have ha := C3_dynamic_dependency progE e2Base 0 1 (some 9) 2
    ⟨by decide, by decide, by decide, by decide, by decide⟩
    (by decide) hsig (by unfold notInNodeTxns; decide)
  have hb := C3_dynamic_dependency progE e1Base 0 0 (some 3) 2
    ⟨by decide, by decide, by decide, by decide, by decide⟩
    (by decide) hsig (by unfold notInNodeTxns; decide)
  refine ⟨ha.1 (by decide), hb.2.1 (by decide) (by decide) (by decide) (by decide), ?_⟩
  exact hb.2.2 (0, some 0) (by decide) (by decide)

/-- C10 (amended): for `t = takeValues(s)`: while no evaluation has observed
null, at quiescence `t`'s value equals `s`'s current value; the first
evaluation that observes null freezes `t` permanently at the previously
retained value — the last non-null value observed, or null when `s` was
already null at construction (see the last conjunct) — and no later change to
`s` alters `t`'s value; between a write to `s` and its flush `t` returns the
previous evaluation's value (see the counterexample). -/
theorem C10_takeValues_spec {A : Type} [DecidableEq A]
    (prog : Nat → (Option A × Bool) → Comp (Option A) ((Option A × Bool) × Option A))
    (j i : Nat) (ops : List (Op (Option A))) (sys : Sys (Option A) (Option A × Bool))
    (hprog : ∀ cl, prog j cl = takeValuesBody i cl)
    (hjlen : j < sys.nodes.length) (hilen : i < sys.sigs.length)
    (hcomp : (getNode sys j).isComputed = true)
    (hwf : Wf sys) (hInv : InvT j i sys) :
    InvT j i (applyOps prog ops sys) ∧
      ((getNode sys j).closure.2 = true →
        read (applyOps prog ops sys) j = read sys j) ∧
      ((applyOps prog ops sys).queue = [] →
        (getNode (applyOps prog ops sys) j).closure.2 = false →
        read (applyOps prog ops sys) j = sigState (applyOps prog ops sys) i) ∧
      (read (flushN progT 3 (send 0 (some 5) t10Null)) 0 = none ∧
        sigState (flushN progT 3 (send 0 (some 5) t10Null)) 0 = some 5) := by
  have h := invT_applyOps prog j i ops sys hprog hjlen hilen hcomp hInv
  refine ⟨h.1, ?_, ?_, by decide, by decide⟩
  · intro hc
    exact (h.2 hc).1
  · intro hq hc2
    have hwf' := applyOps_wf prog ops sys hwf
    have hjlen' : j < (applyOps prog ops sys).nodes.length := by
      rw [applyOps_nodes_length]; exact hjlen
    have hflag := flag_false_of_quiescent _ j hwf' hq hjlen'
    obtain ⟨_, h2⟩ := h.1
    rcases h2 with hf | ⟨hcs, hcase⟩
    · rw [hflag] at hf; cases hf
    · rcases hcase with hcomplete | ⟨hss, _⟩
      · rw [hc2] at hcomplete; cases hcomplete
      · exact hss

/-- Witness for `C10_takeValues_spec`: tracking while non-null (a write then a
flush yields the new value), and permanence once the upstream signal has been
observed null. -/
theorem C10_takeValues_spec_witness :
    read (applyOps progT [.write 0 (some 2), .flush] t10Base) 0 = some 2 ∧
      read (applyOps progT [.write 0 (some 9), .flush]
        (flushN progT 3 (send 0 none t10Base))) 0 = some 1 := by
  have ha := C10_takeValues_spec progT 0 0 [.write 0 (some 2), .flush] t10Base
    (fun cl => rfl) (by decide) (by decide) (by decide)
    ⟨by decide, by decide, by decide, by decide, by decide⟩
    (by unfold InvT; decide)
  have hb := C10_takeValues_spec progT 0 0 [.write 0 (some 9), .flush]
    (flushN progT 3 (send 0 none t10Base))
    (fun cl => rfl) (by decide) (by decide) (by decide)
    ⟨by decide, by decide, by decide, by decide, by decide⟩
    (by unfold InvT; decide)
  constructor
  · have h1 := ha.2.2.1 (by decide) (by decide)
    rw [h1]
    decide
  · have h2 := hb.2.1 (by decide)
    rw [h2]
    decide

end Track

end Spellcaster
